import Mathlib

/-!
Verification of the flux-to-sectors pipeline of the `fluxtoimd` repository.

Shallow embedding conventions:
* Python channel-bit strings (characters `'0'`/`'1'`) are `List Bool`
  (`true` = `'1'`).
* Python byte strings are `List Nat` with entries intended to be `< 256`.
* Python machine integers are unbounded, so `Nat`/`Int` model them directly;
  masking appears exactly where the source masks.
* Fallible code (index errors, type errors, unpacking errors) is modelled
  with `Option`/`Except`: a `none`/`.error` result models a Python runtime
  exception.
-/

namespace FluxToImd

/-- Decidable equality of `Except` results, for evaluating parsers on
concrete inputs. -/
instance {ε α : Type} [DecidableEq ε] [DecidableEq α] : DecidableEq (Except ε α) :=
  fun a b =>
    match a, b with
    | .error e, .error e' =>
      if h : e = e' then .isTrue (by rw [h]) else .isFalse (by simp [h])
    | .ok x, .ok x' =>
      if h : x = x' then .isTrue (by rw [h]) else .isFalse (by simp [h])
    | .error _, .ok _ => .isFalse (by simp)
    | .ok _, .error _ => .isFalse (by simp)

/-- `int(bits, 2)` on a string of `'0'`/`'1'` characters: most significant
bit first. -/
def natFromBitsMSB (l : List Bool) : Nat :=
  l.foldl (fun a b => 2 * a + cond b 1 0) 0

/-- Worker for `Modulation.decode` (src/modulation.py, lines 24-35).
`acc` is the `bits` string of data bits collected so far; every time it
reaches eight bits a byte is emitted.  A channel-bit string of odd length
makes the Python loop read `channel_bits[i+1]` past the end (IndexError),
modelled by `none`. -/
def decodeAux : List Bool → List Bool → Option (List Nat)
  | _, [] => some []
  | _, [_] => none
  | acc, _clock :: data :: rest =>
      let acc' := acc ++ [data]
      if acc'.length = 8 then
        (decodeAux [] rest).map (fun bs => natFromBitsMSB acc' :: bs)
      else
        decodeAux acc' rest

namespace Modulation

/-- `Modulation.decode` (src/modulation.py, lines 24-35): split a channel-bit
string into (clock, data) pairs, keep the data bits, and pack them into
bytes most-significant-bit first.  Trailing data bits short of a byte are
discarded. -/
def decode (channel_bits : List Bool) : Option (List Nat) :=
  decodeAux [] channel_bits

end Modulation

/-- The data characters at odd positions of a channel-bit string. -/
def oddBits : List Bool → List Bool
  | [] => []
  | [_] => []
  | _ :: d :: rest => d :: oddBits rest

/-- Specification-side description of `Modulation.decode` (§4.5 of the spec:
"taking every other bit (data positions; odd indices), MSB-first, packing
into bytes"): the k-th output byte is built from the odd-position characters
of the k-th 16-character group. -/
def dataBytesSpec (s : List Bool) : List Nat :=
  (List.range (s.length / 16)).map
    (fun k => natFromBitsMSB (oddBits ((s.drop (16 * k)).take 16)))

/-- `FM.encode_mark` (src/modulation.py, lines 57-63): interleave eight
clock bits and eight data bits, most significant first. -/
def FM.encode_mark (data clock : Nat) : List Bool :=
  ([7, 6, 5, 4, 3, 2, 1, 0] : List Nat).foldl
    (fun bits i => bits ++ [((clock >>> i) &&& 1) == 1, ((data >>> i) &&& 1) == 1])
    []

/-- `IntelM2FM.encode_mark` (src/modulation.py, lines 145-151): textually the
same algorithm as `FM.encode_mark`. -/
def IntelM2FM.encode_mark (data clock : Nat) : List Bool :=
  ([7, 6, 5, 4, 3, 2, 1, 0] : List Nat).foldl
    (fun bits i => bits ++ [((clock >>> i) &&& 1) == 1, ((data >>> i) &&& 1) == 1])
    []

/-- `HPM2FM.encode_mark` (src/modulation.py, lines 183-189): as FM but with
the loop running `for i in range(0, 8)`, i.e. least significant bit first. -/
def HPM2FM.encode_mark (data clock : Nat) : List Bool :=
  ([0, 1, 2, 3, 4, 5, 6, 7] : List Nat).foldl
    (fun bits i => bits ++ [((clock >>> i) &&& 1) == 1, ((data >>> i) &&& 1) == 1])
    []

/-- `MFM.encode_mark` (src/modulation.py, lines 90-109): two data bytes with
derived clock bits; the clock is 1 iff the previous and current data bits are
both 0, except at the position `6 - missing_clock1` in the first byte.  The
fold state is `(bits, prev_d)`.  (Python computes `6 - missing_clock1` in
`int`; the in-class uses are `missing_clock1 ∈ {4, 5}`, where `Nat`
subtraction agrees.) -/
def MFM.encode_mark (data1 missing_clock1 data2 : Nat) : List Bool :=
  let s1 := ([7, 6, 5, 4, 3, 2, 1, 0] : List Nat).foldl
    (fun (st : List Bool × Nat) i =>
      let d := (data1 >>> i) &&& 1
      let c : Nat := if st.2 = 0 ∧ d = 0 ∧ i ≠ 6 - missing_clock1 then 1 else 0
      (st.1 ++ [c == 1, d == 1], d))
    ([], 0)
  let s2 := ([7, 6, 5, 4, 3, 2, 1, 0] : List Nat).foldl
    (fun (st : List Bool × Nat) i =>
      let d := (data2 >>> i) &&& 1
      let c : Nat := if st.2 = 0 ∧ d = 0 then 1 else 0
      (st.1 ++ [c == 1, d == 1], d))
    s1
  s2.1

/-! ## CRC engine (src/crc.py) -/

/-- `CRC.CRCParam` (src/crc.py, lines 32-39); the `name` field is dropped. -/
structure CRCParam where
  order : Nat
  poly : Nat
  init : Nat
  xorot : Nat
  refin : Bool
  refot : Bool
deriving Repr, DecidableEq

namespace CRC

/-- `self.widmask` (src/crc.py, line 80). -/
def widmask (p : CRCParam) : Nat := (1 <<< p.order) - 1

/-- `self.topbit` (src/crc.py, line 81). -/
def topbit (p : CRCParam) : Nat := 1 <<< (p.order - 1)

/-- Loop body of `CRC.reflect` (src/crc.py, lines 86-95): `d2 <<= 1;
if d1 & 1: d2 |= 1; d1 >>= 1`, repeated `bit_count` times. -/
def reflectAux : Nat → Nat → Nat → Nat
  | _, d2, 0 => d2
  | d1, d2, b + 1 => reflectAux (d1 >>> 1) ((d2 <<< 1) ||| (d1 &&& 1)) b

/-- `CRC.reflect` (src/crc.py, lines 86-95). -/
def reflect (data bit_count : Nat) : Nat := reflectAux data 0 bit_count

/-- One shift-XOR step of the register (the common body of `comp_int`'s
bit-serial branch and `make_table_entry`, src/crc.py lines 146-150 and
165-169): conditionally XOR the polynomial when the top bit is set, then
mask to `order` bits. -/
def polyStep (p : CRCParam) (r : Nat) : Nat :=
  (if r &&& topbit p ≠ 0 then (r <<< 1) ^^^ p.poly else r <<< 1) &&& widmask p

/-- The bit-serial branch of `comp_int` (src/crc.py, lines 144-150): XOR the
input bit at the register's top position, then one `polyStep`. -/
def serial_step (p : CRCParam) (reg b : Nat) : Nat :=
  polyStep p (reg ^^^ (b <<< (p.order - 1)))

/-- Bit-serial ingestion of the low `bc` bits of `data`, most significant
first, exactly as `comp_int` does when no table fits (src/crc.py, lines
143-151 with `b = (data >> bit_count - 1) & 1`). -/
def serialBits (p : CRCParam) : Nat → Nat → Nat → Nat
  | reg, _, 0 => reg
  | reg, data, bc + 1 => serialBits p (serial_step p reg ((data >>> bc) &&& 1)) data bc

/-- The register map `polyStep` iterated (left to right), a proof device
for relating table steps to bit-serial steps. -/
def iterPoly (p : CRCParam) : Nat → Nat → Nat
  | 0, r => r
  | n + 1, r => iterPoly p n (polyStep p r)

/-- `CRC.make_table_entry` (src/crc.py, lines 160-171).  The Python loop
variable `b` of `for b in range(bit_count - 1, -1, -1)` is overwritten on the
first line of the body, so the loop simply runs `bit_count` times,
consuming the bits of `d` most significant first into a register started at
0 — i.e. `serialBits` from register 0. -/
def make_table_entry (p : CRCParam) (d bit_count : Nat) : Nat :=
  serialBits p 0 d bit_count

/-- `CRC.find_table` (src/crc.py, lines 123-128): the largest width `i` with
`2 ≤ i ≤ bit_count` for which a table has been built (`i ∈ tables`), else 0.
The mutable `self.cache` only memoises this pure function (and `make_table`
clears it), so it is not modelled. -/
def find_table (tables : List Nat) : Nat → Nat
  | 0 => 0
  | 1 => 0
  | n + 2 => if (n + 2) ∈ tables then n + 2 else find_table tables (n + 1)

/-- The table-driven step of `comp_int` (src/crc.py, lines 138-141):
`reg = tables[ts][(reg >> (order - ts)) ^ b] ^ (reg << ts)` masked.
`make_table` fills `tables[ts][i]` with `make_table_entry(i, ts)`
(src/crc.py line 180), so the lookup is `make_table_entry` applied to the
index. -/
def table_step (p : CRCParam) (ts reg b : Nat) : Nat :=
  (make_table_entry p ((reg >>> (p.order - ts)) ^^^ b) ts ^^^ (reg <<< ts)) &&& widmask p

/-- The `while bit_count > 0` loop of `CRC.comp_int` (src/crc.py, lines
133-151), with the set of built table widths as `tables`.  Every pass
consumes at least one bit, so the loop is driven by a structural `fuel`
counter that `comp_int` sets to the initial bit count. -/
def comp_int_loop (p : CRCParam) (tables : List Nat) : Nat → Nat → Nat → Nat → Nat
  | 0, _, reg, _ => reg
  | fuel + 1, bc, reg, data =>
    match bc with
    | 0 => reg
    | bc' + 1 =>
      match find_table tables (bc' + 1) with
      | 0 => comp_int_loop p tables fuel bc' (serial_step p reg ((data >>> bc') &&& 1)) data
      | ts + 1 =>
        comp_int_loop p tables fuel (bc' + 1 - (ts + 1))
          (table_step p (ts + 1) reg ((data >>> (bc' + 1 - (ts + 1))) &&& ((1 <<< (ts + 1)) - 1)))
          data

/-- `CRC.comp_int` (src/crc.py, lines 130-151): reflect the input first when
`refin`, then run the loop. -/
def comp_int (p : CRCParam) (tables : List Nat) (reg data bit_count : Nat) : Nat :=
  comp_int_loop p tables bit_count bit_count reg
    (if p.refin then reflect data bit_count else data)

/-- `CRC.comp` on a byte sequence (src/crc.py, lines 153-158): `comp_int` on
each element with the default `bit_count = 8`. -/
def comp_list (p : CRCParam) (tables : List Nat) (reg : Nat) (bytes : List Nat) : Nat :=
  bytes.foldl (fun r b => comp_int p tables r b 8) reg

/-- `CRC.get` (src/crc.py, lines 185-189). -/
def get (p : CRCParam) (reg : Nat) : Nat :=
  if p.refot then reflect (reg ^^^ p.xorot) p.order else reg ^^^ p.xorot

/-- `CRC.crc` (src/crc.py, lines 191-194): reset, ingest, read out. -/
def crc (p : CRCParam) (tables : List Nat) (bytes : List Nat) : Nat :=
  get p (comp_list p tables p.init bytes)

/-- `CRC.crc16_ccitt_param` (src/crc.py, lines 41-47). -/
def crc16_ccitt_param : CRCParam :=
  { order := 16, poly := 0x1021, init := 0xffff, xorot := 0, refin := false, refot := false }

end CRC

/-! ## Track decoder `dump_track` (src/fluxtoimd.py, lines 47-158)

`dump_track` first runs the ADPLL over the block to produce the channel-bit
string `bits`; the decoding logic below takes that string as input.  The
CRC object used is built in the main script (src/fluxtoimd.py, lines
201-211) from CRC-16-CCITT with `init = modulation.crc_init`,
`refin = modulation.lsb_first`, and an 8-bit lookup table. -/

/-- The per-modulation descriptor attributes that `dump_track` reads.
The channel-bit marks, `crc_includes_address_mark`, `id_to_data_half_bits`,
`crc_init` and `lsb_first` are literal in src/modulation.py.
`id_field_length` and `expected_sector_sizes` are read by
src/fluxtoimd.py but are absent from src/modulation.py; they are modelled
from the spec (§4.3: ID length 4, or 2 for HP M2FM; §3: "set of acceptable
sector sizes"). -/
structure ModDesc where
  id_address_mark : List Bool
  data_address_mark : List Bool
  deleted_data_address_mark : Option (List Bool)
  index_address_mark : Option (List Bool)
  id_field_length : Nat
  crc_includes_address_mark : Bool
  id_to_data_half_bits : Nat
  expected_sector_sizes : List Nat
  crc_init : Nat
  lsb_first : Bool
  imagedisk_mode : Nat
deriving Repr

/-- The FM descriptor (src/modulation.py, lines 42-70).  `id_field_length`
and `expected_sector_sizes` are modelled from the spec: absent from
src/modulation.py (§4.3 gives ID len 4; the FM sector size is 128). -/
def FMdesc : ModDesc where
  id_address_mark := FM.encode_mark 0xfe 0xc7
  data_address_mark := FM.encode_mark 0xfb 0xc7
  deleted_data_address_mark := some (FM.encode_mark 0xf8 0xc7)
  index_address_mark := some (FM.encode_mark 0xfc 0xd7)
  id_field_length := 4
  crc_includes_address_mark := true
  id_to_data_half_bits := 400
  expected_sector_sizes := [128]
  crc_init := 0xffff
  lsb_first := false
  imagedisk_mode := 0x00

/-- The CRC parameter set the main script builds for a modulation
(src/fluxtoimd.py, lines 201-207). -/
def trackCRCParam (M : ModDesc) : CRCParam :=
  { order := 16, poly := 0x1021, init := M.crc_init, xorot := 0,
    refin := M.lsb_first, refot := false }

/-- `crc.reset(); crc.comp(bytes); crc.get()` with the main script's CRC
object, which has an 8-bit table built (`crc.make_table(8)`,
src/fluxtoimd.py line 211). -/
def trackCRC (M : ModDesc) (bytes : List Nat) : Nat :=
  CRC.get (trackCRCParam M) (CRC.comp_list (trackCRCParam M) [8] (trackCRCParam M).init bytes)

/-- Scanner for `re.finditer` driven by a structural fuel counter (every
step consumes at least one character, so fuel = string length suffices). -/
def finditerF (pat : List Bool) : Nat → List Bool → Nat → List Nat
  | 0, _, _ => []
  | fuel + 1, l, pos =>
    match l with
    | [] => []
    | c :: rest =>
      if pat.isPrefixOf (c :: rest) then
        pos :: finditerF pat fuel (rest.drop (pat.length - 1)) (pos + pat.length)
      else
        finditerF pat fuel rest (pos + 1)

/-- `re.finditer(pattern, bits)` for a pattern of literal characters:
starting positions of the leftmost non-overlapping occurrences. -/
def finditer (pat : List Bool) (l : List Bool) (pos : Nat) : List Nat :=
  finditerF pat l.length l pos

/-- `bits.find(pattern, start)` scanning a suffix: first match position at or
after `pos`, else `-1`. -/
def strFindAux (pat : List Bool) : List Bool → Nat → Int
  | [], pos => if pat.isPrefixOf ([] : List Bool) then (pos : Int) else -1
  | l@(_ :: rest), pos => if pat.isPrefixOf l then (pos : Int) else strFindAux pat rest (pos + 1)

/-- `bits.find(pattern, start)` (Python `str.find`): the least index
`≥ start` where `pattern` occurs, else `-1`. -/
def strFind (pat s : List Bool) (start : Nat) : Int :=
  strFindAux pat (s.drop start) start

/-- One sector-map entry: `(deleted, data)`; `dump_track` first stores the
placeholder `[False, None]` (src/fluxtoimd.py line 125) and overwrites it
with `(deleted, data_field[1:bc+1])` on a successful data decode (line
156). -/
abbrev SectorEntry := Bool × Option (List Nat)

/-- The `sectors` `OrderedDict`, as an insertion-ordered association list
with unique keys. -/
abbrev SectorMap := List (Nat × SectorEntry)

/-- `OrderedDict` assignment `m[k] = v`: overwrite in place when the key
exists, else append. -/
def alSet {α β : Type} [DecidableEq α] : List (α × β) → α → β → List (α × β)
  | [], k, v => [(k, v)]
  | (k', v') :: rest, k, v =>
    if k' = k then (k, v) :: rest else (k', v') :: alSet rest k v

/-- Parse the decoded ID field (src/fluxtoimd.py, lines 98-108), returning
`(id_track, id_head, id_sector, id_size)`.  Unpacking too short a slice
raises `ValueError` in Python, modelled by `none`. -/
def parseId (M : ModDesc) (id_field : List Nat) : Option (Nat × Nat × Nat × Nat) :=
  if M.id_field_length = 2 then
    match id_field with
    | _ :: t :: s0 :: _ =>
      if s0 < 0x80 then some (t, 0, s0, 1) else some (t, 1, s0 - 0x80, 1)
    | _ => none
  else
    match id_field with
    | _ :: t :: h :: s :: z :: _ => some (t, h, s, z)
    | _ => none

/-- The data-address-mark distance window (src/fluxtoimd.py, lines 129 and
134): `(id_to_data_half_bits - 50) <= (data_pos - id_pos) <=
(id_to_data_half_bits + 50)`, over Python ints (a failed `find` gives
`data_pos = -1`). -/
def windowOK (M : ModDesc) (id_pos : Nat) (data_pos : Int) : Bool :=
  decide ((M.id_to_data_half_bits : Int) - 50 ≤ data_pos - (id_pos : Int) ∧
    data_pos - (id_pos : Int) ≤ (M.id_to_data_half_bits : Int) + 50)

/-- Data-field decode, CRC check and store (src/fluxtoimd.py, lines
146-156).  A failed CRC leaves the placeholder in `sectors` and continues;
`none` models a Python crash inside `decode`. -/
def finishData (M : ModDesc) (sectors : SectorMap) (id_sector : Nat) (deleted : Bool)
    (data_pos : Int) (bits : List Bool) (bc : Nat) : Option SectorMap :=
  match Modulation.decode
      ((bits.drop data_pos.toNat).take (M.id_address_mark.length + (bc + 2) * 16)) with
  | none => none
  | some data_field =>
    if trackCRC M (if M.crc_includes_address_mark then data_field else data_field.drop 1) ≠ 0 then
      some sectors
    else
      some (alSet sectors id_sector (deleted, some ((data_field.drop 1).take bc)))

/-- The body of `dump_track`'s `for id_pos in id_address_mark_locs` loop
(src/fluxtoimd.py, lines 86-156) for one candidate position.  `continue`
returns the map unchanged (or with the placeholder already inserted);
`none` models a Python crash.  Note that the unexpected-sector-size test
(lines 119-122) only prints a diagnostic: control falls through, so the
candidate is not discarded. -/
def processCandidate (M : ModDesc) (track side : Nat) (bits : List Bool)
    (sectors : SectorMap) (id_pos : Nat) : Option SectorMap :=
  match Modulation.decode
      ((bits.drop id_pos).take (M.id_address_mark.length + 16 * (M.id_field_length + 2))) with
  | none => none
  | some id_field =>
    if trackCRC M (if M.crc_includes_address_mark then id_field else id_field.drop 1) ≠ 0 then
      some sectors
    else
      match parseId M id_field with
      | none => none
      | some (id_track, id_head, id_sector, id_size) =>
        if id_head ≠ side then some sectors
        else if id_track ≠ track then some sectors
        else
          let bc := 128 <<< id_size
          match (sectors.lookup id_sector : Option SectorEntry) with
          | some (_, some _) => some sectors
          | _ =>
            let sectors1 := alSet sectors id_sector (false, none)
            let data_pos := strFind M.data_address_mark bits
              (id_pos + M.id_address_mark.length + 16 * (M.id_field_length + 2))
            if windowOK M id_pos data_pos then
              finishData M sectors1 id_sector false data_pos bits bc
            else
              match M.deleted_data_address_mark with
              | some dm =>
                let data_pos2 := strFind dm bits (id_pos + M.id_address_mark.length + 96)
                if windowOK M id_pos data_pos2 then
                  finishData M sectors1 id_sector true data_pos2 bits bc
                else
                  some sectors1
              | none => some sectors1

/-- Fold `processCandidate` over the candidate ID-mark positions in order. -/
def processCandidates (M : ModDesc) (track side : Nat) (bits : List Bool) :
    SectorMap → List Nat → Option SectorMap
  | sectors, [] => some sectors
  | sectors, p :: rest =>
    match processCandidate M track side bits sectors p with
    | none => none
    | some s' => processCandidates M track side bits s' rest

/-- `dump_track` (src/fluxtoimd.py, lines 47-158) from the channel-bit
string onward: optional index-mark gate, then the candidate loop over
`re.finditer(modulation.id_address_mark, bits)`. -/
def dump_track (M : ModDesc) (track side : Nat) (bits : List Bool)
    (require_index_mark : Bool) : Option SectorMap :=
  if require_index_mark then
    match M.index_address_mark with
    | none => none
    | some im =>
      if finditer im bits 0 = [] then some []
      else processCandidates M track side bits [] (finditer M.id_address_mark bits 0)
  else
    processCandidates M track side bits [] (finditer M.id_address_mark bits 0)

/-! ## ADPLL (src/adpll.py)

Python floats are modelled by exact rationals; the C5 scenario only
involves arithmetic that floats perform exactly (the error term stays 0 and
the period never changes), so the rational model matches the float run. -/

/-- Python `int(x)` on a number: truncation toward zero. -/
def pyInt (q : ℚ) : Int := if 0 ≤ q then ⌊q⌋ else -⌊-q⌋

/-- `ADPLL` instance state (src/adpll.py, lines 23-48).  `zero_bits` is a
`Nat`: the source sets it to `hbi - 1` with `hbi ≥ 1` and only decrements
it when nonzero.  `idx` is the read position in the delta iterator. -/
structure ADPLLState where
  osc_period : ℚ
  min_osc_period : ℚ
  max_osc_period : ℚ
  freq_adj_factor : ℚ
  phase_adj_factor : ℚ
  window_frac : ℚ
  zero_bits : Nat
  trans_time : ℚ
  osc_time : ℚ
  idx : Nat
deriving Repr, DecidableEq

/-- `ADPLL.__init__` (src/adpll.py, lines 23-48): lock the oscillator to
the first transition. -/
def adpllInit (delta : Nat → ℚ) (osc_period max_adj_pct window_pct freq_adj_factor
    phase_adj_factor : ℚ) : ADPLLState where
  osc_period := osc_period
  min_osc_period := osc_period * (100 - max_adj_pct) / 100
  max_osc_period := osc_period * (100 + max_adj_pct) / 100
  freq_adj_factor := freq_adj_factor
  phase_adj_factor := phase_adj_factor
  window_frac := window_pct / 100
  zero_bits := 0
  trans_time := delta 0
  osc_time := delta 0
  idx := 1

/-- The `while hbi <= 0` loop of `ADPLL.__next__` (src/adpll.py, lines
61-72): consume deltas until a transition lands at least one half-cell
ahead.  `fuel` bounds the number of iterations; `none` models
non-termination / an exhausted iterator. -/
def adpllConsume (delta : Nat → ℚ) : Nat → ADPLLState → Option (Int × ADPLLState)
  | 0, _ => none
  | fuel + 1, st =>
    let trans := st.trans_time + delta st.idx
    let q := (trans - st.osc_time) / st.osc_period
    let hbi := pyInt (q + 1 / 2)
    let osc := st.osc_time + hbi * st.osc_period
    let st' := { st with trans_time := trans, osc_time := osc, idx := st.idx + 1 }
    if hbi ≤ 0 then adpllConsume delta fuel st' else some (hbi, st')

/-- `ADPLL.__next__` (src/adpll.py, lines 53-103): emit a pending zero, or
consume transitions, apply frequency (clamped) and phase adjustment, set
the pending-zero count to `hbi - 1` and emit a one. -/
def adpllNext (delta : Nat → ℚ) (fuel : Nat) (st : ADPLLState) :
    Option (Nat × ADPLLState) :=
  if st.zero_bits ≠ 0 then some (0, { st with zero_bits := st.zero_bits - 1 })
  else
    match adpllConsume delta fuel st with
    | none => none
    | some (hbi, st1) =>
      let error := st1.trans_time - st1.osc_time
      let st2 :=
        if st1.freq_adj_factor ≠ 0 then
          let p := st1.osc_period + error * st1.freq_adj_factor
          let p' := if p < st1.min_osc_period then st1.min_osc_period
            else if p > st1.max_osc_period then st1.max_osc_period else p
          { st1 with osc_period := p' }
        else st1
      let st3 :=
        if st2.phase_adj_factor ≠ 0 then
          { st2 with osc_time := st2.osc_time + error * st2.phase_adj_factor }
        else st2
      some (1, { st3 with zero_bits := (hbi - 1).toNat })

/-- Collect the first `n` ADPLL output bits together with the final state. -/
def adpllRun (delta : Nat → ℚ) (fuel : Nat) (st : ADPLLState) :
    Nat → Option (List Nat × ADPLLState)
  | 0 => some ([], st)
  | n + 1 =>
    match adpllRun delta fuel st n with
    | none => none
    | some (bs, s) =>
      match adpllNext delta fuel s with
      | none => none
      | some (b, s') => some (bs ++ [b], s')

/-- The C5 scenario's delta iterator: 4 µs between every pair of flux
transitions, forever. -/
def fourMicro : Nat → ℚ := fun _ => 4 / 1000000

/-- The C5 scenario's initial oscillator period: 2.0 µs. -/
def scenarioP0 : ℚ := 2 / 1000000

/-- The C5 scenario state: `ADPLL(di, osc_period = 2µs, max_adj_pct = 3.0,
window_pct = 50.0, freq_adj_factor = 0.005, phase_adj_factor = 0.1)`, the
tuning constants `dump_track` uses (src/fluxtoimd.py, lines 63-68). -/
def scenarioInit : ADPLLState :=
  adpllInit fourMicro scenarioP0 3 50 (5 / 1000) (1 / 10)

/-- The ADPLL state after `2k` emitted bits of the C5 scenario: locked to
transition `k+1`, with the oscillator exactly on time and the period still
at its initial value. -/
def scenarioState (k : Nat) : ADPLLState where
  osc_period := scenarioP0
  min_osc_period := scenarioP0 * 97 / 100
  max_osc_period := scenarioP0 * 103 / 100
  freq_adj_factor := 5 / 1000
  phase_adj_factor := 1 / 10
  window_frac := 1 / 2
  zero_bits := 0
  trans_time := ((k : ℚ) + 1) * (4 / 1000000)
  osc_time := ((k : ℚ) + 1) * (4 / 1000000)
  idx := k + 1

/-! ## ImageDisk container (src/imagedisk.py) -/

/-- `ImageDisk.Sector` (src/imagedisk.py, lines 46-51). -/
structure IMDSector where
  mode : Nat
  deleted : Bool
  size_code : Nat
  data : List Nat
deriving Repr, DecidableEq

/-- One track: an insertion-ordered map sector number ↦ sector. -/
abbrev IMDTrack := List (Nat × IMDSector)

/-- `self.tracks`: map `(cylinder, head)` ↦ track. -/
abbrev IMDTracks := List ((Nat × Nat) × IMDTrack)

/-- Abnormal terminations of the ImageDisk code.  `duplicateSector` models
the `raise DuplicateSectorException` of line 66 (which, being an
unqualified name, actually surfaces as a `NameError` — either way the
operation aborts); `attributeError` models line 160's
`[sector.size_code for sector in track]`, which iterates the dict's integer
keys; `typeError` models serialising a `None` mode for an empty track. -/
inductive IMDErr where
  | duplicateSector
  | invalidSectorSize
  | mixedModeTrack
  | attributeError
  | typeError
  | valueError
  | assertionError
  | indexError
  | notImageDisk
  | infiniteLoop
  | fuel
deriving Repr, DecidableEq

/-- `ImageDisk.__sector_size_map` (src/imagedisk.py, lines 53-58). -/
def sector_size_map (n : Nat) : Option Nat :=
  [(128, 0), (256, 1), (512, 2), (1024, 3), (2048, 4), (4096, 5)].lookup n

/-- `ImageDisk.write_sector` (src/imagedisk.py, lines 61-69).  (Python
inserts an empty track dict before validating; as every error aborts the
program, the difference is unobservable and the insertion is folded into
the success path.) -/
def write_sector (tracks : IMDTracks) (mode cylinder head sector : Nat)
    (data : List Nat) (deleted : Bool := false) (replace_ok : Bool := false) :
    Except IMDErr IMDTracks :=
  let tc := (cylinder, head)
  let track := (tracks.lookup tc).getD []
  if ¬replace_ok ∧ (track.lookup sector).isSome then .error .duplicateSector
  else
    match sector_size_map data.length with
    | none => .error .invalidSectorSize
    | some sc =>
      .ok (alSet tracks tc (alSet track sector ⟨mode, deleted, sc, data⟩))

/-- The per-sector bytes written by `ImageDisk.__write_track` (src/imagedisk.py,
lines 161-173): data code 1 (or 3 when deleted), +1 and a single byte when
every byte equals the first (`data[1:] == data[:-1]`), else the raw data. -/
def sectorBytes (sec : IMDSector) : List Nat :=
  let data_code := if sec.deleted then 3 else 1
  if sec.data.drop 1 = sec.data.dropLast then (data_code + 1) :: sec.data.take 1
  else data_code :: sec.data

/-- `ImageDisk.__write_track` (src/imagedisk.py, lines 134-173).  An empty
track leaves `mode = None` (a `TypeError` when serialised); mixed modes
raise; mixed sector sizes set `sector_size_code = 0xff`, whose size-map
branch crashes with `AttributeError` (line 160 iterates the dict keys);
`bytes(...)` on a value above 255 raises `ValueError`. -/
def write_track (tc : Nat × Nat) (track : IMDTrack) : Except IMDErr (List Nat) :=
  match track with
  | [] => .error .typeError
  | (_, sec0) :: rest =>
    if rest.any (fun e => e.2.mode ≠ sec0.mode) then .error .mixedModeTrack
    else
      let ssc := if rest.all (fun e => e.2.size_code = sec0.size_code)
        then sec0.size_code else 0xff
      if ssc = 0xff then .error .attributeError
      else
        let header := [sec0.mode, tc.1, tc.2, track.length, ssc]
        if (header ++ track.map Prod.fst).any (fun b => 256 ≤ b) then .error .valueError
        else .ok (header ++ track.map Prod.fst ++ track.flatMap (fun e => sectorBytes e.2))

/-- The fixed part of the IMD header (src/imagedisk.py, lines 183-187):
`"IMD 1.18 DD/MM/YYYY HH:MM:SS\r"` then the 0x1A terminator.  The
timestamp is runtime-dependent; a fixed date stands in for it (no header
byte is 0x1A before the terminator for any date). -/
def imdHeaderBytes : List Nat :=
  (("IMD 1.18 12/10/2026 00:00:00" : String).data.map Char.toNat) ++ [0x0d, 0x1a]

/-- `sorted(self.tracks.keys())` comparison on `(cylinder, head)`. -/
def tcLe (a b : Nat × Nat) : Bool :=
  decide (a.1 < b.1 ∨ (a.1 = b.1 ∧ a.2 ≤ b.2))

/-- Ordered insertion for the `sorted(...)` model. -/
def insertSorted {α : Type} (le : α → α → Bool) (x : α) : List α → List α
  | [] => [x]
  | y :: rest => if le x y then x :: y :: rest else y :: insertSorted le x rest

/-- Python `sorted(...)`: the list reordered ascending (the keys sorted here
are distinct dict keys, so stability is irrelevant). -/
def pySorted {α : Type} (le : α → α → Bool) (l : List α) : List α :=
  l.foldr (insertSorted le) []

/-- Serialise every track in sorted key order. -/
def writeAllTracks : IMDTracks → Except IMDErr (List Nat)
  | [] => .ok []
  | (tc, tr) :: rest => do
    let bs ← write_track tc tr
    let more ← writeAllTracks rest
    .ok (bs ++ more)

/-- `ImageDisk.write` (src/imagedisk.py, lines 176-194), with no comment. -/
def imdWrite (tracks : IMDTracks) : Except IMDErr (List Nat) := do
  let body ← writeAllTracks (pySorted (fun a b => tcLe a.1 b.1) tracks)
  .ok (imdHeaderBytes ++ body)

/-- The `for i in range(sector_count)` loop of `ImageDisk.__read_track`
(src/imagedisk.py, lines 87-97).  Crucially, the `write_sector` call on
line 97 passes no `deleted` argument, so the flag computed on line 91 is
dropped.  Consumes `nums`/`codes` in lockstep with the remaining count. -/
def readSectors (mode cyl head : Nat) :
    IMDTracks → List Nat → List Nat → Nat → List Nat → Except IMDErr (IMDTracks × List Nat)
  | tracks, _, _, 0, bs => .ok (tracks, bs)
  | tracks, nums, codes, i + 1, bs =>
    match nums, codes with
    | num :: nums', code :: codes' =>
      match bs with
      | [] => .error .indexError
      | dt :: bs1 =>
        if 8 < dt then .error .assertionError
        else
          -- `bad` and `deleted` are computed on lines 90-91 and never used
          let compressed := dt = 2 ∨ dt = 4 ∨ dt = 6 ∨ dt = 8
          let size := 128 <<< code
          let (data, bs2) :=
            if compressed then ((List.replicate size (bs1.take 1)).flatten, bs1.drop 1)
            else (bs1.take size, bs1.drop size)
          match write_sector tracks mode cyl head num data with
          | .error e => .error e
          | .ok tracks' => readSectors mode cyl head tracks' nums' codes' i bs2
    | _, _ => .error .indexError

/-- `ImageDisk.__read_track` (src/imagedisk.py, lines 72-97): header of
five bytes (fewer is the EOF that ends the read loop, signalled here by
`none`), the sector-number map, the optional per-sector size map, then the
sectors. -/
def read_track (tracks : IMDTracks) : List Nat → Except IMDErr (Option (IMDTracks × List Nat))
  | mode :: cyl :: head :: cnt :: ssc :: rest =>
    let nums := rest.take cnt
    let rest1 := rest.drop cnt
    let (codes, rest2) :=
      if ssc = 0xff then (rest1.take cnt, rest1.drop cnt)
      else (List.replicate cnt ssc, rest1)
    match readSectors mode cyl head tracks nums codes cnt rest2 with
    | .error e => .error e
    | .ok (tracks', bs') => .ok (some (tracks', bs'))
  | _ => .ok none

/-- The `while True: __read_track` loop of the constructor (src/imagedisk.py,
lines 114-118).  Each productive iteration consumes at least five bytes, so
`fuel` bounds the iterations. -/
def imdReadLoop : Nat → IMDTracks → List Nat → Except IMDErr IMDTracks
  | 0, _, _ => .error .fuel
  | fuel + 1, tracks, bs =>
    match read_track tracks bs with
    | .error e => .error e
    | .ok none => .ok tracks
    | .ok (some (tracks', bs')) => imdReadLoop fuel tracks' bs'

/-- Skip header bytes up to and including the 0x1A terminator
(src/imagedisk.py, lines 111-113); a missing terminator loops forever on
`f.read(1) = b''`. -/
def skipTo1A : List Nat → Except IMDErr (List Nat)
  | [] => .error .infiniteLoop
  | b :: rest => if b = 0x1a then .ok rest else skipTo1A rest

/-- `ImageDisk.__init__` reading an existing image (src/imagedisk.py, lines
101-120): check the `"IMD "` magic, skip to 0x1A, then read tracks until
EOF. -/
def imdRead (bs : List Nat) : Except IMDErr IMDTracks :=
  if bs.take 4 = (("IMD " : String).data.map Char.toNat) then
    match skipTo1A (bs.drop 4) with
    | .error e => .error e
    | .ok rest => imdReadLoop (rest.length + 1) [] rest
  else .error .notImageDisk

/-! ## KryoFlux stream parser (src/kfsf.py) -/

/-- `KyroFluxStream` mutable state (src/kfsf.py, lines 185-200).
`pending_index` maps an Index OOB's `next_flux_stream_pos` to its
`sample_counter`. -/
structure KFState where
  stream_offset : Nat
  overflow : Nat
  flux_sample_counter : Nat
  prev_flux_sample_counter : Nat
  flux_trans_abs : List Nat
  index_abs : List Nat
  pending_index : List (Nat × Nat)
  index_count : Nat
  stream_end : Bool
  logical_eof : Bool
deriving Repr, DecidableEq

/-- `KyroFluxStream.__init__` state initialisation (src/kfsf.py, lines
185-200). -/
def kfsInit : KFState where
  stream_offset := 0
  overflow := 0
  flux_sample_counter := 0
  prev_flux_sample_counter := 0
  flux_trans_abs := []
  index_abs := []
  pending_index := []
  index_count := 0
  stream_end := false
  logical_eof := false

/-- Abnormal terminations of the KryoFlux stream parser.  `typeError`
models src/kfsf.py line 176: `self.flux_change(self.read_u16_le)` passes
the bound method object itself (the call parentheses are missing), so
`flux_change` adds an `int` to a method and Python raises `TypeError`. -/
inductive KFErr where
  | typeError
  | eofError
  | inBandPastEnd
  | unknownOOB
  | oobLengthMismatch
  | infoNotTerminated
  | fuel
deriving Repr, DecidableEq

/-- Remove the first pair with the given key, returning its value. -/
def lookupRemove : List (Nat × Nat) → Nat → Option (Nat × List (Nat × Nat))
  | [], _ => none
  | (k', v) :: rest, k =>
    if k' = k then some (v, rest)
    else (lookupRemove rest k).map (fun r => (r.1, (k', v) :: r.2))

/-- `KyroFluxStream.flux_change` (src/kfsf.py, lines 135-148): accumulate
`overflow + offset` into the sample counter, append the absolute
transition, resolve a pending Index OOB whose `next_flux_stream_pos`
equals the current in-band stream offset, and remember the previous
counter. -/
def flux_change (st : KFState) (offset : Nat) : KFState :=
  let c := st.flux_sample_counter + st.overflow + offset
  let st1 := { st with flux_sample_counter := c, overflow := 0,
                       flux_trans_abs := st.flux_trans_abs ++ [c] }
  let st2 :=
    match lookupRemove st1.pending_index st1.stream_offset with
    | some (sc, rest) =>
      { st1 with index_abs := st1.index_abs ++ [st1.prev_flux_sample_counter + sc],
                 pending_index := rest }
    | none => st1
  { st2 with prev_flux_sample_counter := c }

/-- Little-endian value of a byte list (first byte least significant). -/
def leVal (l : List Nat) : Nat := l.foldr (fun b acc => b + 256 * acc) 0

/-- An OOB block (src/kfsf.py, lines 27-132): after the 0x0D tag, a kind
byte and a LE u16 length, then the kind's payload.  `get_block` records
`block_offset` before reading the tag and the handler finally resets
`stream_offset` to it (line 39: OOB bytes don't count toward the in-band
stream offset), so the net stream offset is unchanged; the intermediate
offset increments are not observable and are therefore not threaded
through.  The payload-length consistency check of lines 34-36 is skipped
once `logical_eof` is set.  The Info text (kind 4) must be NUL-terminated;
its `key=value` metadata only feeds the sample-frequency lookup and
diagnostics, so its content is not retained here. -/
def kfsfOOB (st : KFState) (input : List Nat) : Except KFErr (KFState × List Nat) :=
  match input with
  | oob_type :: l0 :: l1 :: rest =>
    if oob_type = 0x01 then
      match rest with
      | _ :: _ :: _ :: _ :: _ :: _ :: _ :: _ :: rest' =>
        -- payload: stream position and transfer time, diagnostics only
        if ¬st.logical_eof ∧ l0 + 256 * l1 ≠ 8 then .error .oobLengthMismatch
        else .ok (st, rest')
      | _ => .error .eofError
    else if oob_type = 0x02 then
      match rest with
      | b0 :: b1 :: b2 :: b3 :: b4 :: b5 :: b6 :: b7 :: _ :: _ :: _ :: _ :: rest' =>
        -- payload: next flux stream position, sample counter, index counter
        if ¬st.logical_eof ∧ l0 + 256 * l1 ≠ 12 then .error .oobLengthMismatch
        else
          .ok ({ st with
                   index_count := st.index_count + 1,
                   pending_index := st.pending_index
                     ++ [(leVal [b0, b1, b2, b3], leVal [b4, b5, b6, b7])] }, rest')
      | _ => .error .eofError
    else if oob_type = 0x03 then
      match rest with
      | _ :: _ :: _ :: _ :: _ :: _ :: _ :: _ :: rest' =>
        -- payload: stream position and result code, diagnostics only
        if ¬st.logical_eof ∧ l0 + 256 * l1 ≠ 8 then .error .oobLengthMismatch
        else .ok ({ st with stream_end := true }, rest')
      | _ => .error .eofError
    else if oob_type = 0x04 then
      if rest.length < l0 + 256 * l1 then .error .eofError
      else if (rest.take (l0 + 256 * l1)).getLast? ≠ some 0 then .error .infoNotTerminated
      else .ok (st, rest.drop (l0 + 256 * l1))
    else if oob_type = 0x0d then
      .ok ({ st with logical_eof := true }, rest)
    else .error .unknownOOB
  | _ => .error .eofError

/-- `KyroFluxStream.get_block` (src/kfsf.py, lines 153-183): one in-band
byte (EOF here sets `logical_eof` and stops), dispatched on its value.
The Flux3 branch (line 176) is `self.flux_change(self.read_u16_le)` — the
method object is passed uncalled, so the branch raises `TypeError`. -/
def kfsf_get_block (st : KFState) (input : List Nat) : Except KFErr (KFState × List Nat) :=
  match input with
  | [] => .ok ({ st with logical_eof := true }, [])
  | bt :: rest =>
    if bt ≠ 0x0d ∧ st.stream_end then .error .inBandPastEnd
    else
      let st1 := { st with stream_offset := st.stream_offset + 1 }
      if bt ≤ 0x07 then
        match rest with
        | [] => .error .eofError
        | b2 :: rest' =>
          .ok (flux_change { st1 with stream_offset := st1.stream_offset + 1 }
            ((bt <<< 8) + b2), rest')
      else if bt = 0x08 then .ok (st1, rest)
      else if bt = 0x09 then
        match rest with
        | [] => .error .eofError
        | _ :: rest' => .ok ({ st1 with stream_offset := st1.stream_offset + 1 }, rest')
      else if bt = 0x0a then
        match rest with
        | _ :: _ :: rest' => .ok ({ st1 with stream_offset := st1.stream_offset + 2 }, rest')
        | _ => .error .eofError
      else if bt = 0x0b then .ok ({ st1 with overflow := st1.overflow + 0x10000 }, rest)
      else if bt = 0x0c then .error .typeError
      else if bt = 0x0d then kfsfOOB st rest
      else .ok (flux_change st1 bt, rest)

/-- The `while not self.logical_eof: self.get_block()` loop of
`KyroFluxStream.__init__` (src/kfsf.py, lines 202-203), fuel-bounded. -/
def kfsfRun : Nat → KFState → List Nat → Except KFErr KFState
  | 0, _, _ => .error .fuel
  | fuel + 1, st, input =>
    if st.logical_eof then .ok st
    else
      match kfsf_get_block st input with
      | .error e => .error e
      | .ok (st', rest) => kfsfRun fuel st' rest

/-- Parse a whole KryoFlux stream: every productive `get_block` consumes at
least one input byte, so `length + 2` fuel always suffices. -/
def kfsfParse (input : List Nat) : Except KFErr KFState :=
  kfsfRun (input.length + 2) kfsInit input

/-! ## DiscFerret reader (src/dfi.py) -/

/-- `DFIBlock.parse_data_version_1` (src/dfi.py, lines 43-51): fold over the
data bytes with the running time `time_inc`, appending a transition for
every byte with nonzero low seven bits.  Returns `(end_time,
flux_trans_abs)`. -/
def dfiV1Aux : List Nat → Nat → List Nat → Nat × List Nat
  | [], t, acc => (t, acc)
  | b :: rest, t, acc =>
    if b &&& 0x7f = 0 then dfiV1Aux rest (t + 127) acc
    else dfiV1Aux rest (t + (b &&& 0x7f)) (acc ++ [t + (b &&& 0x7f)])

/-- The absolute-transition vector of a DFI v1 block. -/
def parse_data_version_1 (data : List Nat) : List Nat := (dfiV1Aux data 0 []).2

/-- `DFIBlock.parse_data_version_2` (src/dfi.py, lines 53-67): zero bytes
are skipped, a low-7-bits value of 0x7F carries 127 without a transition,
a set high bit records an index pulse, anything else a transition.
Returns `(end_time, flux_trans_abs, index_pos)`. -/
def dfiV2Aux : List Nat → Nat → List Nat → List Nat → Nat × List Nat × List Nat
  | [], t, acc, idx => (t, acc, idx)
  | b :: rest, t, acc, idx =>
    if b &&& 0x7f = 0 then dfiV2Aux rest t acc idx
    else if b &&& 0x7f = 0x7f then dfiV2Aux rest (t + 127) acc idx
    else if b &&& 0x80 ≠ 0 then dfiV2Aux rest (t + (b &&& 0x7f)) acc (idx ++ [t + (b &&& 0x7f)])
    else dfiV2Aux rest (t + (b &&& 0x7f)) (acc ++ [t + (b &&& 0x7f)]) idx

/-- The absolute-transition vector of a DFI v2 block. -/
def parse_data_version_2 (data : List Nat) : List Nat := (dfiV2Aux data 0 [] []).2.1

/-- `generate_flux_trans_rel` (src/dfi.py line 95, src/fluximage.py line
86): consecutive differences of the absolute-transition vector, in Python
`int` arithmetic. -/
def flux_trans_rel (abs : List Nat) : List Int :=
  (abs.zip abs.tail).map (fun p => (p.2 : Int) - (p.1 : Int))

/-! ## SuperCard Pro reader (src/scp.py) -/

/-- The flux accumulation of `SCPBlock.__init__` (src/scp.py, lines 32-41):
`time_inc += cell; flux_trans_abs.append(time_inc)` for every u16 BE cell
count of every revolution in order (`time_inc` is not reset between
revolutions, so the concatenated cell list determines the vector). -/
def scpAccum : List Nat → Nat → List Nat → List Nat
  | [], _, acc => acc
  | c :: rest, t, acc => scpAccum rest (t + c) (acc ++ [t + c])

/-- The absolute-transition vector of an SCP block from its cell counts. -/
def scpFluxAbs (cells : List Nat) : List Nat := scpAccum cells 0 []

/-! ## Predicates and concrete inputs used by the claims -/

/-- A fully successful sector decode at candidate position `p`: the ID
slice decodes with CRC 0 and declares exactly `(track, side, k)`, a data
mark position within the distance window yields a data field with CRC 0,
and `data` is its payload.  This is the success path of
`processCandidate`/`finishData`. -/
def validDecodeAt (M : ModDesc) (track side p k : Nat) (bits : List Bool)
    (data : List Nat) : Prop :=
  ∃ (id_field : List Nat) (id_size : Nat) (dp : Int) (data_field : List Nat),
    Modulation.decode
      ((bits.drop p).take (M.id_address_mark.length + 16 * (M.id_field_length + 2)))
      = some id_field ∧
    trackCRC M (if M.crc_includes_address_mark then id_field else id_field.drop 1) = 0 ∧
    parseId M id_field = some (track, side, k, id_size) ∧
    windowOK M p dp = true ∧
    Modulation.decode
      ((bits.drop dp.toNat).take (M.id_address_mark.length + ((128 <<< id_size) + 2) * 16))
      = some data_field ∧
    trackCRC M (if M.crc_includes_address_mark then data_field else data_field.drop 1) = 0 ∧
    data = (data_field.drop 1).take (128 <<< id_size)

/-- A sector-map entry is good when any stored payload comes from a fully
successful decode; the placeholder `(False, None)` entries carry no
payload. -/
def goodEntry (M : ModDesc) (track side : Nat) (bits : List Bool)
    (k : Nat) (e : SectorEntry) : Prop :=
  ∀ data, e.2 = some data → ∃ p, validDecodeAt M track side p k bits data

/-- An FM data byte as written in a gap or field: data `b` with clock 0xFF. -/
def fmByte (b : Nat) : List Bool := FM.encode_mark b 0xff

/-- Concrete channel bits for C6: an FM ID address mark followed by the ID
field `track 0, head 0, sector 1, size 0` and its correct CRC-16 trailer
(0xD2C3), with no data field anywhere after it. -/
def c6bits : List Bool :=
  FM.encode_mark 0xfe 0xc7 ++ ([0, 0, 1, 0, 0xd2, 0xc3].flatMap fmByte)

/-- Concrete channel bits for C7: as `c6bits` but with size byte 1
(declared sector size 256, not an expected FM size) and its correct CRC
trailer (0xC2E2). -/
def c7bits : List Bool :=
  FM.encode_mark 0xfe 0xc7 ++ ([0, 0, 1, 1, 0xc2, 0xe2].flatMap fmByte)

/-! ## Orchestrator main loop (src/fluxtoimd.py, lines 228-230) -/

/-- The `(track_num, side_num)` pairs visited by the main loop:
`for track_num in range(args.tracks): for side_num in range(args.sides - 1)`.
Note the source iterates `range(args.sides - 1)`, not `range(args.sides)`. -/
def mainLoopPairs (tracks sides : Nat) : List (Nat × Nat) :=
  (List.range tracks).flatMap (fun t => (List.range (sides - 1)).map (fun s => (t, s)))

/-! # Theorems

First the supporting lemmas, then one theorem per claim (with witnesses and
counterexamples where required). -/

/-! ## The channel-bit decoder -/

theorem natFromBitsMSB_aux (l : List Bool) :
    ∀ a : Nat, l.foldl (fun x b => 2 * x + cond b 1 0) a < (a + 1) * 2 ^ l.length := by
  induction l with
  | nil => intro a; simp
  | cons b t ih =>
    intro a
    have h := ih (2 * a + cond b 1 0)
    simp only [List.foldl_cons, List.length_cons]
    refine lt_of_lt_of_le h ?_
    have hb : 2 * a + cond b 1 0 + 1 ≤ (a + 1) * 2 := by cases b <;> simp <;> omega
    calc (2 * a + cond b 1 0 + 1) * 2 ^ t.length
        ≤ (a + 1) * 2 * 2 ^ t.length := Nat.mul_le_mul_right _ hb
      _ = (a + 1) * 2 ^ (t.length + 1) := by ring

theorem natFromBitsMSB_lt (l : List Bool) : natFromBitsMSB l < 2 ^ l.length := by
  have h := natFromBitsMSB_aux l 0
  norm_num at h
  exact h

theorem oddBits_length : ∀ l : List Bool, (oddBits l).length = l.length / 2
  | [] => by simp [oddBits]
  | [_] => by simp [oddBits]
  | _ :: _ :: t => by
    simp only [oddBits, List.length_cons, oddBits_length t]
    omega

theorem decodeAux_short :
    ∀ s acc : List Bool, s.length % 2 = 0 → acc.length + s.length / 2 < 8 →
      decodeAux acc s = some []
  | [], _, _, _ => by simp [decodeAux]
  | [_], _, h2, _ => by simp at h2
  | _ :: b :: t, acc, h2, h8 => by
    simp only [List.length_cons] at h2 h8
    have h2' : t.length % 2 = 0 := by omega
    have h8' : (acc ++ [b]).length + t.length / 2 < 8 := by
      simp only [List.length_append, List.length_cons, List.length_nil]
      omega
    have hne : ¬((acc ++ [b]).length = 8) := by
      simp only [List.length_append, List.length_cons, List.length_nil]
      omega
    simp only [decodeAux, if_neg hne]
    exact decodeAux_short t (acc ++ [b]) h2' h8'

theorem decodeAux_chunk (c0 d0 c1 d1 c2 d2 c3 d3 c4 d4 c5 d5 c6 d6 c7 d7 : Bool)
    (t : List Bool) :
    decodeAux []
      (c0 :: d0 :: c1 :: d1 :: c2 :: d2 :: c3 :: d3 ::
       c4 :: d4 :: c5 :: d5 :: c6 :: d6 :: c7 :: d7 :: t)
      = (decodeAux [] t).map
          (fun bs => natFromBitsMSB [d0, d1, d2, d3, d4, d5, d6, d7] :: bs) := by
  simp [decodeAux]

theorem dataBytesSpec_short (s : List Bool) (h : s.length < 16) :
    dataBytesSpec s = [] := by
  have h0 : s.length / 16 = 0 := Nat.div_eq_of_lt h
  simp [dataBytesSpec, h0]

theorem dataBytesSpec_chunk (c0 d0 c1 d1 c2 d2 c3 d3 c4 d4 c5 d5 c6 d6 c7 d7 : Bool)
    (t : List Bool) :
    dataBytesSpec
      (c0 :: d0 :: c1 :: d1 :: c2 :: d2 :: c3 :: d3 ::
       c4 :: d4 :: c5 :: d5 :: c6 :: d6 :: c7 :: d7 :: t)
      = natFromBitsMSB [d0, d1, d2, d3, d4, d5, d6, d7] :: dataBytesSpec t := by
  have hlen :
      (c0 :: d0 :: c1 :: d1 :: c2 :: d2 :: c3 :: d3 ::
       c4 :: d4 :: c5 :: d5 :: c6 :: d6 :: c7 :: d7 :: t).length = t.length + 16 := by
    simp only [List.length_cons]
  have hdiv : (t.length + 16) / 16 = t.length / 16 + 1 :=
    Nat.add_div_right _ (by norm_num)
  simp only [dataBytesSpec, hlen, hdiv, List.range_succ_eq_map, List.map_cons, List.map_map]
  refine congrArg₂ List.cons rfl ?_
  refine List.map_congr_left (fun k _ => ?_)
  have h16 : 16 * Nat.succ k = 16 + 16 * k := by omega
  simp only [Function.comp_apply, h16, ← List.drop_drop]
  rfl

theorem decode_eq_spec :
    ∀ s : List Bool, s.length % 2 = 0 → decodeAux [] s = some (dataBytesSpec s)
  | [], _ => by simp [decodeAux, dataBytesSpec]
  | [_], h => by simp only [List.length_cons, List.length_nil] at h; omega
  | [a, b], h => by
    rw [decodeAux_short _ _ h (by simp), dataBytesSpec_short _ (by simp)]
  | [_, _, _], h => by simp only [List.length_cons, List.length_nil] at h; omega
  | [a, b, c, d], h => by
    rw [decodeAux_short _ _ h (by simp), dataBytesSpec_short _ (by simp)]
  | [_, _, _, _, _], h => by simp only [List.length_cons, List.length_nil] at h; omega
  | [a, b, c, d, e, f], h => by
    rw [decodeAux_short _ _ h (by simp), dataBytesSpec_short _ (by simp)]
  | [_, _, _, _, _, _, _], h => by simp only [List.length_cons, List.length_nil] at h; omega
  | [a, b, c, d, e, f, g, i], h => by
    rw [decodeAux_short _ _ h (by simp), dataBytesSpec_short _ (by simp)]
  | [_, _, _, _, _, _, _, _, _], h => by simp only [List.length_cons, List.length_nil] at h; omega
  | [a, b, c, d, e, f, g, i, j, k], h => by
    rw [decodeAux_short _ _ h (by simp), dataBytesSpec_short _ (by simp)]
  | [_, _, _, _, _, _, _, _, _, _, _], h => by simp only [List.length_cons, List.length_nil] at h; omega
  | [a, b, c, d, e, f, g, i, j, k, l, m], h => by
    rw [decodeAux_short _ _ h (by simp), dataBytesSpec_short _ (by simp)]
  | [_, _, _, _, _, _, _, _, _, _, _, _, _], h => by simp only [List.length_cons, List.length_nil] at h; omega
  | [a, b, c, d, e, f, g, i, j, k, l, m, o, q], h => by
    rw [decodeAux_short _ _ h (by simp), dataBytesSpec_short _ (by simp)]
  | [_, _, _, _, _, _, _, _, _, _, _, _, _, _, _], h => by simp only [List.length_cons, List.length_nil] at h; omega
  | c0 :: d0 :: c1 :: d1 :: c2 :: d2 :: c3 :: d3 ::
      c4 :: d4 :: c5 :: d5 :: c6 :: d6 :: c7 :: d7 :: t, h => by
    have ht : t.length % 2 = 0 := by
      simp only [List.length_cons] at h
      omega
    rw [decodeAux_chunk, decode_eq_spec t ht, dataBytesSpec_chunk]
    rfl

/-- `Modulation.decode` computes exactly the specification-side byte list on
even-length channel-bit strings. -/
theorem decode_eq_dataBytesSpec (s : List Bool) (h : s.length % 2 = 0) :
    Modulation.decode s = some (dataBytesSpec s) :=
  decode_eq_spec s h

/-- C10: for every even-length channel-bit string, `Modulation.decode`
returns exactly `⌊|s|/16⌋` bytes; the k-th byte is built from the
odd-position (data) characters of `s[16k .. 16k+15]` most significant bit
first (that is exactly `dataBytesSpec`); trailing characters after the last
complete group of 16 contribute nothing; and every byte is below 256. -/
theorem decode_structure (s : List Bool) (h : s.length % 2 = 0) :
    Modulation.decode s = some (dataBytesSpec s) ∧
    (dataBytesSpec s).length = s.length / 16 ∧
    ∀ b ∈ dataBytesSpec s, b < 256 := by
  refine ⟨decode_eq_spec s h, by simp [dataBytesSpec], ?_⟩
  intro b hb
  simp only [dataBytesSpec, List.mem_map] at hb
  obtain ⟨k, _, rfl⟩ := hb
  have htake : ((s.drop (16 * k)).take 16).length ≤ 16 := by
    rw [List.length_take]
    exact min_le_left _ _
  have h8 : (oddBits ((s.drop (16 * k)).take 16)).length ≤ 8 := by
    rw [oddBits_length]
    omega
  calc natFromBitsMSB (oddBits ((s.drop (16 * k)).take 16))
      < 2 ^ (oddBits ((s.drop (16 * k)).take 16)).length := natFromBitsMSB_lt _
    _ ≤ 2 ^ 8 := Nat.pow_le_pow_right (by norm_num) h8
    _ = 256 := by norm_num

/-- C10 witness: the theorem applied at a concrete 18-character string. -/
theorem decode_structure_witness :
    Modulation.decode (List.replicate 18 true)
        = some (dataBytesSpec (List.replicate 18 true)) ∧
    (dataBytesSpec (List.replicate 18 true)).length = (List.replicate 18 true).length / 16 ∧
    ∀ b ∈ dataBytesSpec (List.replicate 18 true), b < 256 :=
  decode_structure (List.replicate 18 true) (by decide)

/-! ## Mark encoding round-trips (C3) -/

set_option maxRecDepth 10000 in
theorem natFromBits_byte (d : Nat) (hd : d < 256) :
    natFromBitsMSB
      [((d >>> 7) &&& 1) == 1, ((d >>> 6) &&& 1) == 1, ((d >>> 5) &&& 1) == 1,
       ((d >>> 4) &&& 1) == 1, ((d >>> 3) &&& 1) == 1, ((d >>> 2) &&& 1) == 1,
       ((d >>> 1) &&& 1) == 1, ((d >>> 0) &&& 1) == 1] = d := by
  revert hd
  revert d
  decide

set_option maxRecDepth 10000 in
theorem natFromBits_byte_rev (d : Nat) (hd : d < 256) :
    natFromBitsMSB
      [((d >>> 0) &&& 1) == 1, ((d >>> 1) &&& 1) == 1, ((d >>> 2) &&& 1) == 1,
       ((d >>> 3) &&& 1) == 1, ((d >>> 4) &&& 1) == 1, ((d >>> 5) &&& 1) == 1,
       ((d >>> 6) &&& 1) == 1, ((d >>> 7) &&& 1) == 1] = CRC.reflect d 8 := by
  revert hd
  revert d
  decide

set_option maxHeartbeats 2000000 in
/-- C3 (amended): under FM and Intel M2FM, `decode (encode_mark data clock)`
recovers `[data]`, and under MFM it recovers `[data1, data2]` for every
missing-clock position; under HP M2FM, whose `encode_mark` emits the bits
least significant first while `decode` packs them most significant first,
it recovers the bit-reversed byte `[CRC.reflect data 8]` instead of
`[data]`. -/
theorem decode_encode_mark (d c d1 mc d2 : Nat)
    (hd : d < 256) (_hc : c < 256) (hd1 : d1 < 256) (hd2 : d2 < 256) :
    Modulation.decode (FM.encode_mark d c) = some [d] ∧
    Modulation.decode (IntelM2FM.encode_mark d c) = some [d] ∧
    Modulation.decode (MFM.encode_mark d1 mc d2) = some [d1, d2] ∧
    Modulation.decode (HPM2FM.encode_mark d c) = some [CRC.reflect d 8] := by
  have hfm : Modulation.decode (FM.encode_mark d c) = some [natFromBitsMSB
      [((d >>> 7) &&& 1) == 1, ((d >>> 6) &&& 1) == 1, ((d >>> 5) &&& 1) == 1,
       ((d >>> 4) &&& 1) == 1, ((d >>> 3) &&& 1) == 1, ((d >>> 2) &&& 1) == 1,
       ((d >>> 1) &&& 1) == 1, ((d >>> 0) &&& 1) == 1]] := rfl
  have hintel : Modulation.decode (IntelM2FM.encode_mark d c) = some [natFromBitsMSB
      [((d >>> 7) &&& 1) == 1, ((d >>> 6) &&& 1) == 1, ((d >>> 5) &&& 1) == 1,
       ((d >>> 4) &&& 1) == 1, ((d >>> 3) &&& 1) == 1, ((d >>> 2) &&& 1) == 1,
       ((d >>> 1) &&& 1) == 1, ((d >>> 0) &&& 1) == 1]] := rfl
  have hmfm : Modulation.decode (MFM.encode_mark d1 mc d2) = some [natFromBitsMSB
      [((d1 >>> 7) &&& 1) == 1, ((d1 >>> 6) &&& 1) == 1, ((d1 >>> 5) &&& 1) == 1,
       ((d1 >>> 4) &&& 1) == 1, ((d1 >>> 3) &&& 1) == 1, ((d1 >>> 2) &&& 1) == 1,
       ((d1 >>> 1) &&& 1) == 1, ((d1 >>> 0) &&& 1) == 1], natFromBitsMSB
      [((d2 >>> 7) &&& 1) == 1, ((d2 >>> 6) &&& 1) == 1, ((d2 >>> 5) &&& 1) == 1,
       ((d2 >>> 4) &&& 1) == 1, ((d2 >>> 3) &&& 1) == 1, ((d2 >>> 2) &&& 1) == 1,
       ((d2 >>> 1) &&& 1) == 1, ((d2 >>> 0) &&& 1) == 1]] := rfl
  have hhp : Modulation.decode (HPM2FM.encode_mark d c) = some [natFromBitsMSB
      [((d >>> 0) &&& 1) == 1, ((d >>> 1) &&& 1) == 1, ((d >>> 2) &&& 1) == 1,
       ((d >>> 3) &&& 1) == 1, ((d >>> 4) &&& 1) == 1, ((d >>> 5) &&& 1) == 1,
       ((d >>> 6) &&& 1) == 1, ((d >>> 7) &&& 1) == 1]] := rfl
  refine ⟨?_, ?_, ?_, ?_⟩
  · rw [hfm, natFromBits_byte d hd]
  · rw [hintel, natFromBits_byte d hd]
  · rw [hmfm, natFromBits_byte d1 hd1, natFromBits_byte d2 hd2]
  · rw [hhp, natFromBits_byte_rev d hd]

/-- C3 counterexample: the HP M2FM ID address mark is `encode_mark(0x70,
clock=0xe0)`, and `Modulation.decode` returns `[0x0e]` — the bit-reversal
of 0x70 — not `[0x70]`. -/
theorem decode_encode_mark_hp_counterexample :
    Modulation.decode (HPM2FM.encode_mark 0x70 0xe0) = some [0x0e] ∧
    (0x0e : Nat) ≠ 0x70 := by
  exact ⟨by decide, by decide⟩

/-- C3 witness: the amended theorem applied at the concrete HP M2FM ID mark
data byte and the MFM ID mark bytes. -/
theorem decode_encode_mark_witness :
    Modulation.decode (FM.encode_mark 0x70 0xe0) = some [0x70] ∧
    Modulation.decode (IntelM2FM.encode_mark 0x70 0xe0) = some [0x70] ∧
    Modulation.decode (MFM.encode_mark 0xa1 4 0xfe) = some [0xa1, 0xfe] ∧
    Modulation.decode (HPM2FM.encode_mark 0x70 0xe0) = some [CRC.reflect 0x70 8] :=
  decode_encode_mark 0x70 0xe0 0xa1 4 0xfe (by decide) (by decide) (by decide) (by decide)

/-! ## CRC table-width independence (C4) -/

namespace CRC

theorem widmask_eq (p : CRCParam) : widmask p = 2 ^ p.order - 1 := by
  simp [widmask, Nat.shiftLeft_eq]

theorem and_two_pow_sub_one (x n : Nat) : x &&& (2 ^ n - 1) = x % 2 ^ n := by
  apply Nat.eq_of_testBit_eq
  intro i
  simp only [Nat.testBit_and, Nat.testBit_two_pow_sub_one, Nat.testBit_mod_two_pow]
  exact Bool.and_comm _ _

theorem and_mask_of_lt (p : CRCParam) {x : Nat} (h : x < 2 ^ p.order) :
    x &&& widmask p = x := by
  rw [widmask_eq, and_two_pow_sub_one, Nat.mod_eq_of_lt h]

theorem and_mask_lt (p : CRCParam) (x : Nat) : x &&& widmask p < 2 ^ p.order := by
  rw [widmask_eq, and_two_pow_sub_one]
  exact Nat.mod_lt _ (Nat.pos_pow_of_pos _ (by norm_num))

theorem shiftLeft_xor_distrib (x y k : Nat) :
    (x ^^^ y) <<< k = (x <<< k) ^^^ (y <<< k) := by
  apply Nat.eq_of_testBit_eq
  intro i
  simp only [Nat.testBit_shiftLeft, Nat.testBit_xor, Bool.and_xor_distrib_left]

theorem and_xor_distrib_right_nat (x y m : Nat) :
    (x ^^^ y) &&& m = (x &&& m) ^^^ (y &&& m) := by
  apply Nat.eq_of_testBit_eq
  intro i
  simp only [Nat.testBit_and, Nat.testBit_xor, Bool.and_xor_distrib_right]

theorem and_one_shift_ne_zero (x k : Nat) : (x &&& (1 <<< k) ≠ 0) ↔ x.testBit k := by
  have h1 : (1 : Nat) <<< k = 2 ^ k := by simp [Nat.shiftLeft_eq]
  rw [h1, Nat.and_two_pow]
  cases h : x.testBit k <;> simp

theorem polyStep_eq (p : CRCParam) (r : Nat) :
    polyStep p r =
      cond (r.testBit (p.order - 1))
        (((r <<< 1) ^^^ p.poly) &&& widmask p) ((r <<< 1) &&& widmask p) := by
  cases h : r.testBit (p.order - 1) <;>
    simp [polyStep, topbit, and_one_shift_ne_zero, h]

theorem polyStep_xor (p : CRCParam) (x y : Nat) :
    polyStep p (x ^^^ y) = polyStep p x ^^^ polyStep p y := by
  rw [polyStep_eq, polyStep_eq, polyStep_eq, Nat.testBit_xor]
  cases hx : x.testBit (p.order - 1) <;> cases hy : y.testBit (p.order - 1) <;>
    simp only [Bool.xor_self, Bool.false_xor, Bool.xor_false, Bool.true_xor, Bool.xor_true,
      Bool.not_true, Bool.not_false, cond] <;>
    · apply Nat.eq_of_testBit_eq
      intro i
      simp only [Nat.testBit_and, Nat.testBit_xor, Nat.testBit_shiftLeft]
      cases x.testBit (i - 1) <;> cases y.testBit (i - 1) <;>
        cases p.poly.testBit i <;> cases (widmask p).testBit i <;>
        cases decide (i ≥ 1) <;> rfl

theorem iterPoly_xor (p : CRCParam) :
    ∀ n x y, iterPoly p n (x ^^^ y) = iterPoly p n x ^^^ iterPoly p n y
  | 0, _, _ => rfl
  | n + 1, x, y => by
    simp only [iterPoly, polyStep_xor]
    exact iterPoly_xor p n _ _

theorem polyStep_low (p : CRCParam) (hord : 1 ≤ p.order) {x : Nat}
    (h : x < 2 ^ (p.order - 1)) : polyStep p x = x <<< 1 := by
  have hbit : x.testBit (p.order - 1) = false := Nat.testBit_eq_false_of_lt h
  have hlt : x <<< 1 < 2 ^ p.order := by
    rw [Nat.shiftLeft_eq, pow_one]
    calc x * 2 < 2 ^ (p.order - 1) * 2 := by omega
      _ = 2 ^ p.order := by
        rw [← pow_succ]
        congr 1
        omega
  rw [polyStep_eq, hbit, cond_false, and_mask_of_lt p hlt]

theorem iterPoly_low (p : CRCParam) :
    ∀ ts, ts ≤ p.order → ∀ lo, lo < 2 ^ (p.order - ts) → iterPoly p ts lo = lo <<< ts
  | 0, _, lo, _ => by simp [iterPoly]
  | ts + 1, hts, lo, hlo => by
    have hord : 1 ≤ p.order := le_trans (by omega) hts
    have h1 : lo < 2 ^ (p.order - 1) := by
      refine lt_of_lt_of_le hlo (Nat.pow_le_pow_right (by norm_num) ?_)
      omega
    have h2 : lo <<< 1 < 2 ^ (p.order - ts) := by
      rw [Nat.shiftLeft_eq, pow_one]
      have : 2 ^ (p.order - (ts + 1)) * 2 = 2 ^ (p.order - ts) := by
        rw [← pow_succ]
        congr 1
        omega
      omega
    have := iterPoly_low p ts (by omega) (lo <<< 1) h2
    simp only [iterPoly, polyStep_low p hord h1, this, ← Nat.shiftLeft_add]
    congr 1
    omega

theorem serial_step_lt (p : CRCParam) (reg b : Nat) :
    serial_step p reg b < 2 ^ p.order := by
  unfold serial_step polyStep
  exact and_mask_lt p _

theorem serialBits_lt (p : CRCParam) :
    ∀ bc reg data, 1 ≤ bc → serialBits p reg data bc < 2 ^ p.order
  | 1, reg, data, _ => serial_step_lt p _ _
  | bc + 2, reg, data, _ => serialBits_lt p (bc + 1) _ data (by omega)

theorem mod_two_pow_succ_xor (data bc : Nat) :
    data % 2 ^ (bc + 1) = (((data >>> bc) &&& 1) <<< bc) ^^^ (data % 2 ^ bc) := by
  apply Nat.eq_of_testBit_eq
  intro i
  have h1 : (1 : Nat) = 2 ^ 0 := rfl
  rcases lt_trichotomy i bc with h | h | h
  · simp only [Nat.testBit_mod_two_pow, Nat.testBit_xor, Nat.testBit_shiftLeft]
    have : ¬(i ≥ bc) := by omega
    simp [this, h, Nat.lt_succ_of_lt h]
  · subst h
    simp only [Nat.testBit_mod_two_pow, Nat.testBit_xor, Nat.testBit_shiftLeft, h1,
      Nat.and_two_pow]
    simp only [Nat.testBit_shiftRight]
    cases h' : data.testBit i <;> simp [h']
  · simp only [Nat.testBit_mod_two_pow, Nat.testBit_xor, Nat.testBit_shiftLeft]
    have h2 : ¬(i < bc + 1) := by omega
    have h3 : ¬(i < bc) := by omega
    have h4 : i ≥ bc := by omega
    have h5 : 1 ≤ i - bc := by omega
    have h6 : ((data >>> bc) % 2).testBit (i - bc) = false := by
      apply Nat.testBit_eq_false_of_lt
      calc (data >>> bc) % 2 < 2 ^ 1 := by
            have := Nat.mod_lt (data >>> bc) (y := 2) (by norm_num)
            simpa using this
        _ ≤ 2 ^ (i - bc) := Nat.pow_le_pow_right (by norm_num) h5
    simp [h2, h3, h4, h6, Nat.and_one_is_mod]

theorem serialBits_eq_iterPoly (p : CRCParam) :
    ∀ bc, bc ≤ p.order → ∀ reg data,
      serialBits p reg data bc = iterPoly p bc (reg ^^^ ((data % 2 ^ bc) <<< (p.order - bc)))
  | 0, _, reg, data => by simp [serialBits, iterPoly, Nat.mod_one]
  | bc + 1, hbc, reg, data => by
    have ih := serialBits_eq_iterPoly p bc (by omega) (serial_step p reg ((data >>> bc) &&& 1)) data
    show serialBits p (serial_step p reg ((data >>> bc) &&& 1)) data bc = _
    rw [ih]
    show iterPoly p bc _ = iterPoly p bc (polyStep p _)
    congr 1
    have hsplit :
        (data % 2 ^ (bc + 1)) <<< (p.order - (bc + 1))
          = (((data >>> bc) &&& 1) <<< (p.order - 1)) ^^^
            ((data % 2 ^ bc) <<< (p.order - (bc + 1))) := by
      rw [mod_two_pow_succ_xor, shiftLeft_xor_distrib, ← Nat.shiftLeft_add]
      congr 2
      omega
    have hlow : (data % 2 ^ bc) <<< (p.order - (bc + 1)) < 2 ^ (p.order - 1) := by
      rw [Nat.shiftLeft_eq]
      have hm : data % 2 ^ bc < 2 ^ bc := Nat.mod_lt _ (Nat.pos_pow_of_pos _ (by norm_num))
      calc (data % 2 ^ bc) * 2 ^ (p.order - (bc + 1))
          < 2 ^ bc * 2 ^ (p.order - (bc + 1)) := by
            exact (Nat.mul_lt_mul_right (Nat.pos_pow_of_pos _ (by norm_num))).mpr hm
        _ = 2 ^ (bc + (p.order - (bc + 1))) := by rw [pow_add]
        _ ≤ 2 ^ (p.order - 1) := Nat.pow_le_pow_right (by norm_num) (by omega)
    have hord : 1 ≤ p.order := by omega
    rw [hsplit, ← Nat.xor_assoc, polyStep_xor, polyStep_low p hord hlow,
      ← Nat.shiftLeft_add]
    have : p.order - (bc + 1) + 1 = p.order - bc := by omega
    rw [this]
    rfl

theorem shift_mod_decomp (x k : Nat) : ((x >>> k) <<< k) ^^^ (x % 2 ^ k) = x := by
  apply Nat.eq_of_testBit_eq
  intro i
  simp only [Nat.testBit_xor, Nat.testBit_shiftLeft, Nat.testBit_shiftRight,
    Nat.testBit_mod_two_pow]
  by_cases h : i < k
  · have : ¬(i ≥ k) := by omega
    simp [h, this]
  · have h2 : i ≥ k := by omega
    have h3 : k + (i - k) = i := by omega
    simp [h, h2, h3]

theorem shiftRight_lt_of_lt (x k n : Nat) (h : x < 2 ^ (k + n)) : x >>> k < 2 ^ n := by
  rw [Nat.shiftRight_eq_div_pow]
  rw [Nat.div_lt_iff_lt_mul (Nat.pos_pow_of_pos _ (by norm_num))]
  calc x < 2 ^ (k + n) := h
    _ = 2 ^ n * 2 ^ k := by rw [← pow_add, Nat.add_comm]

theorem shiftLeft_mod_pow (x k ts : Nat) :
    (x <<< ts) % 2 ^ (k + ts) = (x % 2 ^ k) <<< ts := by
  apply Nat.eq_of_testBit_eq
  intro i
  simp only [Nat.testBit_mod_two_pow, Nat.testBit_shiftLeft]
  by_cases h : i ≥ ts
  · by_cases h2 : i < k + ts
    · have : i - ts < k := by omega
      simp [h, h2, this]
    · have : ¬(i - ts < k) := by omega
      simp [h, h2, this]
  · have h3 : i < k + ts := by omega
    simp [h, h3]

theorem table_step_eq_serialBits (p : CRCParam) (ts reg b : Nat)
    (hts1 : 1 ≤ ts) (htso : ts ≤ p.order) (hreg : reg < 2 ^ p.order) (hb : b < 2 ^ ts) :
    table_step p ts reg b = serialBits p reg b ts := by
  have hsplit : p.order - ts + ts = p.order := by omega
  have hhi : reg >>> (p.order - ts) < 2 ^ ts := by
    apply shiftRight_lt_of_lt
    rw [hsplit]
    exact hreg
  have hidx : (reg >>> (p.order - ts)) ^^^ b < 2 ^ ts := Nat.xor_lt_two_pow hhi hb
  have hlo : reg % 2 ^ (p.order - ts) < 2 ^ (p.order - ts) :=
    Nat.mod_lt _ (Nat.pos_pow_of_pos _ (by norm_num))
  have hserial : serialBits p reg b ts
      = make_table_entry p ((reg >>> (p.order - ts)) ^^^ b) ts
        ^^^ ((reg % 2 ^ (p.order - ts)) <<< ts) := by
    rw [serialBits_eq_iterPoly p ts htso reg b, Nat.mod_eq_of_lt hb]
    conv_lhs =>
      rw [show reg = ((reg >>> (p.order - ts)) <<< (p.order - ts)) ^^^ (reg % 2 ^ (p.order - ts))
        from (shift_mod_decomp reg (p.order - ts)).symm]
    rw [Nat.xor_assoc, Nat.xor_comm (reg % 2 ^ (p.order - ts)) _, ← Nat.xor_assoc,
      ← shiftLeft_xor_distrib, iterPoly_xor, iterPoly_low p ts htso _ hlo]
    congr 1
    rw [make_table_entry, serialBits_eq_iterPoly p ts htso 0 _, Nat.mod_eq_of_lt hidx]
    simp [Nat.zero_xor]
  have hmte : make_table_entry p ((reg >>> (p.order - ts)) ^^^ b) ts < 2 ^ p.order :=
    serialBits_lt p ts 0 _ hts1
  rw [table_step, and_xor_distrib_right_nat, and_mask_of_lt p hmte, hserial]
  congr 1
  rw [widmask_eq, and_two_pow_sub_one]
  rw [show (2 : Nat) ^ p.order = 2 ^ (p.order - ts + ts) from by rw [hsplit]]
  exact shiftLeft_mod_pow reg (p.order - ts) ts

theorem find_table_nil : ∀ n, find_table [] n = 0
  | 0 => rfl
  | 1 => rfl
  | n + 2 => by
    simp only [find_table, List.not_mem_nil, if_false]
    exact find_table_nil (n + 1)

theorem find_table_spec (tables : List Nat) :
    ∀ n, find_table tables n = 0 ∨
      (find_table tables n ∈ tables ∧ 2 ≤ find_table tables n ∧ find_table tables n ≤ n)
  | 0 => Or.inl rfl
  | 1 => Or.inl rfl
  | n + 2 => by
    by_cases h : (n + 2) ∈ tables
    · right
      simp only [find_table, if_pos h]
      exact ⟨h, by omega, le_rfl⟩
    · simp only [find_table, if_neg h]
      rcases find_table_spec tables (n + 1) with h0 | ⟨hm, h2, hle⟩
      · exact Or.inl h0
      · exact Or.inr ⟨hm, h2, by omega⟩

theorem comp_int_loop_nil (p : CRCParam) :
    ∀ fuel bc reg data, bc ≤ fuel →
      comp_int_loop p [] fuel bc reg data = serialBits p reg data bc
  | 0, 0, _, _, _ => rfl
  | fuel + 1, 0, _, _, _ => rfl
  | fuel + 1, bc + 1, reg, data, h => by
    simp only [comp_int_loop, find_table_nil]
    exact comp_int_loop_nil p fuel bc _ data (by omega)

theorem and_one_shiftRight_eq (y j : Nat) : (y >>> j) &&& 1 = (y.testBit j).toNat := by
  have h1 : (1 : Nat) = 2 ^ 0 := rfl
  rw [h1, Nat.and_two_pow]
  simp [Nat.testBit_shiftRight]

theorem serialBits_congr_low (p : CRCParam) :
    ∀ ts reg b b', (∀ j, j < ts → b.testBit j = b'.testBit j) →
      serialBits p reg b ts = serialBits p reg b' ts
  | 0, _, _, _, _ => rfl
  | ts + 1, reg, b, b', h => by
    show serialBits p (serial_step p reg ((b >>> ts) &&& 1)) b ts
        = serialBits p (serial_step p reg ((b' >>> ts) &&& 1)) b' ts
    rw [and_one_shiftRight_eq, and_one_shiftRight_eq, h ts (by omega)]
    exact serialBits_congr_low p ts _ b b' (fun j hj => h j (by omega))

theorem serialBits_append (p : CRCParam) :
    ∀ ts bc reg data, ts ≤ bc →
      serialBits p reg data bc
        = serialBits p (serialBits p reg (data >>> (bc - ts)) ts) data (bc - ts)
  | 0, bc, reg, data, _ => rfl
  | ts + 1, bc, reg, data, h => by
    obtain ⟨bc', rfl⟩ : ∃ bc', bc = bc' + 1 := ⟨bc - 1, by omega⟩
    show serialBits p (serial_step p reg ((data >>> bc') &&& 1)) data bc' = _
    rw [serialBits_append p ts bc' _ data (by omega)]
    have e1 : bc' + 1 - (ts + 1) = bc' - ts := by omega
    rw [e1]
    congr 1
    show serialBits p (serial_step p reg ((data >>> bc') &&& 1)) (data >>> (bc' - ts)) ts
      = serialBits p (serial_step p reg (((data >>> (bc' - ts)) >>> ts) &&& 1))
          (data >>> (bc' - ts)) ts
    have e2 : (data >>> (bc' - ts)) >>> ts = data >>> bc' := by
      rw [← Nat.shiftRight_add]
      congr 1
      omega
    rw [e2]

theorem testBit_and_mask {x ts j : Nat} (hj : j < ts) :
    (x &&& (2 ^ ts - 1)).testBit j = x.testBit j := by
  simp [Nat.testBit_and, Nat.testBit_two_pow_sub_one, hj]

theorem table_step_lt (p : CRCParam) (ts reg b : Nat) :
    table_step p ts reg b < 2 ^ p.order := by
  unfold table_step
  exact and_mask_lt p _

/-- The `comp_int` loop computes the bit-serial result no matter which
tables have been built, provided every built width lies between 2 and the
CRC order and the register is in range. -/
theorem comp_int_loop_eq_serial (p : CRCParam) (tables : List Nat)
    (hw : ∀ w ∈ tables, 2 ≤ w ∧ w ≤ p.order) :
    ∀ fuel bc reg data, bc ≤ fuel → reg < 2 ^ p.order →
      comp_int_loop p tables fuel bc reg data = serialBits p reg data bc := by
  intro fuel
  induction fuel with
  | zero =>
    intro bc reg data hbc _
    have : bc = 0 := by omega
    subst this
    rfl
  | succ fuel ih =>
    intro bc reg data hbc hreg
    match bc with
    | 0 => rfl
    | bc' + 1 =>
      rcases find_table_spec tables (bc' + 1) with h0 | ⟨hmem, h2, hle⟩
      · simp only [comp_int_loop, h0]
        rw [ih bc' _ data (by omega) (serial_step_lt p _ _)]
        rfl
      · obtain ⟨m, hm⟩ : ∃ m, find_table tables (bc' + 1) = m + 1 :=
          ⟨find_table tables (bc' + 1) - 1, by omega⟩
        have hts2 : 2 ≤ m + 1 := hm ▸ h2
        have htso : m + 1 ≤ p.order := hm ▸ (hw _ (hm ▸ hmem)).2
        have htsbc : m + 1 ≤ bc' + 1 := hm ▸ hle
        simp only [comp_int_loop, hm]
        set b' := (data >>> (bc' + 1 - (m + 1))) &&& ((1 <<< (m + 1)) - 1) with hb'
        have hblt : b' < 2 ^ (m + 1) := by
          have h1 : (1 : Nat) <<< (m + 1) = 2 ^ (m + 1) := by
            rw [Nat.shiftLeft_eq, one_mul]
          have hle1 : b' ≤ 2 ^ (m + 1) - 1 := by
            rw [hb', h1]
            exact Nat.and_le_right
          have hpos : 1 ≤ 2 ^ (m + 1) := Nat.one_le_two_pow
          omega
        rw [ih (bc' + 1 - (m + 1)) _ data (by omega) (table_step_lt p _ _ _)]
        rw [table_step_eq_serialBits p (m + 1) reg b' (by omega) htso hreg hblt]
        have hcongr : serialBits p reg b' (m + 1)
            = serialBits p reg (data >>> (bc' + 1 - (m + 1))) (m + 1) := by
          apply serialBits_congr_low
          intro j hj
          rw [hb']
          have : (1 : Nat) <<< (m + 1) = 2 ^ (m + 1) := by
            rw [Nat.shiftLeft_eq, one_mul]
          rw [this]
          exact testBit_and_mask hj
        rw [hcongr, ← serialBits_append p (m + 1) (bc' + 1) reg data htsbc]

end CRC

/-- C4: CRC table-width independence.  For every CRC parameter set, every
set of built table widths between 2 and the order, and every in-range
register value, `comp_int` (a single integer of any bit count, input
reflection included) and `comp` over a byte sequence leave the register in
exactly the state the pure bit-serial shift-XOR computation produces —
equivalently, the result is the same for no table, an 8-bit table, a 4-bit
table, or 3-bit and 5-bit tables together. -/
theorem crc_table_independence (p : CRCParam) (tables : List Nat)
    (reg data bit_count : Nat) (bytes : List Nat)
    (hw : ∀ w ∈ tables, 2 ≤ w ∧ w ≤ p.order) (hreg : reg < 2 ^ p.order) :
    CRC.comp_int p tables reg data bit_count = CRC.comp_int p [] reg data bit_count ∧
    CRC.comp_list p tables reg bytes = CRC.comp_list p [] reg bytes := by
  have hint : ∀ r d bc, r < 2 ^ p.order →
      CRC.comp_int p tables r d bc = CRC.comp_int p [] r d bc := by
    intro r d bc hr
    unfold CRC.comp_int
    rw [CRC.comp_int_loop_eq_serial p tables hw bc bc r _ le_rfl hr,
      CRC.comp_int_loop_nil p bc bc r _ le_rfl]
  refine ⟨hint reg data bit_count hreg, ?_⟩
  have hlist : ∀ bs r, r < 2 ^ p.order →
      CRC.comp_list p tables r bs = CRC.comp_list p [] r bs := by
    intro bs
    induction bs with
    | nil => intro r _; rfl
    | cons b rest ih =>
      intro r hr
      show CRC.comp_list p tables (CRC.comp_int p tables r b 8) rest
          = CRC.comp_list p [] (CRC.comp_int p [] r b 8) rest
      rw [hint r b 8 hr]
      refine ih _ ?_
      unfold CRC.comp_int
      rw [CRC.comp_int_loop_nil p 8 8 r _ le_rfl]
      exact CRC.serialBits_lt p 8 r _ (by omega)
  exact hlist bytes reg hreg

set_option maxRecDepth 10000 in
/-- C4 witness: the theorem applied to the CRC-16-CCITT parameters with the
3-bit + 5-bit table mix, register 0xFFFF, one input byte. -/
theorem crc_table_independence_witness :
    CRC.comp_int CRC.crc16_ccitt_param [5, 3] 0xffff 0x31 8
        = CRC.comp_int CRC.crc16_ccitt_param [] 0xffff 0x31 8 ∧
    CRC.comp_list CRC.crc16_ccitt_param [5, 3] 0xffff [0x31, 0x32]
        = CRC.comp_list CRC.crc16_ccitt_param [] 0xffff [0x31, 0x32] :=
  crc_table_independence CRC.crc16_ccitt_param [5, 3] 0xffff 0x31 8 [0x31, 0x32]
    (by decide) (by decide)

set_option maxRecDepth 10000 in
/-- Validation of the CRC embedding against the repository's own test
vector (src/crc.py line 226): CRC-16-CCITT of `"123456789"` is 0x29B1,
with and without tables. -/
theorem crc16_ccitt_vector :
    CRC.crc CRC.crc16_ccitt_param []
        [0x31, 0x32, 0x33, 0x34, 0x35, 0x36, 0x37, 0x38, 0x39] = 0x29b1 ∧
    CRC.crc CRC.crc16_ccitt_param [5, 3]
        [0x31, 0x32, 0x33, 0x34, 0x35, 0x36, 0x37, 0x38, 0x39] = 0x29b1 := by
  exact ⟨by decide, by decide⟩

/-! ## Orchestrator main loop (C1) -/

/-- C1 (code evaluated at the failing input): the main loop iterates
`for side_num in range(args.sides - 1)` (src/fluxtoimd.py line 229), so
with the default `sides = 1` it visits no `(track, side)` pair at all —
`dump_track` is never invoked and nothing reaches the ImageDisk writer —
and with `sides = 2` it visits only side 0.  The claim requires the pairs
`(t, s)` for all `t < tracks`, `s < sides`. -/
theorem mainLoopPairs_eval :
    mainLoopPairs 77 1 = [] ∧
    mainLoopPairs 2 2 = [(0, 0), (1, 0)] ∧
    mainLoopPairs 1 1 ≠ [(0, 0)] := by
  refine ⟨by decide, by decide, by decide⟩

/-! ## ADPLL scenario (C5) -/

theorem scenarioInit_eq : scenarioInit = scenarioState 0 := by
  simp only [scenarioInit, adpllInit, scenarioState, fourMicro, scenarioP0]
  norm_num

theorem scenario_consume (k fuel : Nat) :
    adpllConsume fourMicro (fuel + 1) (scenarioState k)
      = some (2, scenarioState (k + 1)) := by
  have hq : (1 / 250000 : ℚ) / scenarioP0 + 1 / 2 = 5 / 2 := by
    norm_num [scenarioP0]
  have hpy : pyInt (5 / 2) = 2 := by
    have h0 : (0 : ℚ) ≤ 5 / 2 := by norm_num
    simp only [pyInt, if_pos h0]
    norm_num
  simp only [adpllConsume, scenarioState, fourMicro]
  norm_num
  rw [hq, hpy]
  norm_num
  constructor
  · ring
  · norm_num [scenarioP0]
    ring

theorem scenario_step_one (k fuel : Nat) :
    adpllNext fourMicro (fuel + 1) (scenarioState k)
      = some (1, { scenarioState (k + 1) with zero_bits := 1 }) := by
  have hzb : (scenarioState k).zero_bits = 0 := rfl
  have hc1 : ¬(scenarioP0 < scenarioP0 * 97 / 100) := by norm_num [scenarioP0]
  have hc2 : ¬(scenarioP0 * 103 / 100 < scenarioP0) := by norm_num [scenarioP0]
  simp only [adpllNext, hzb, ne_eq, not_true_eq_false, if_neg, scenario_consume]
  simp only [scenarioState, sub_self]
  norm_num [hc1, hc2]

theorem scenario_step_zero (k : Nat) (fuel : Nat) :
    adpllNext fourMicro fuel { scenarioState k with zero_bits := 1 }
      = some (0, scenarioState k) := by
  simp [adpllNext, scenarioState]

theorem scenario_run_even (fuel : Nat) :
    ∀ k, adpllRun fourMicro (fuel + 1) scenarioInit (2 * k)
      = some (((List.range (2 * k)).map fun i => if i % 2 = 0 then 1 else 0),
              scenarioState k) := by
  intro k
  induction k with
  | zero =>
    show adpllRun fourMicro (fuel + 1) scenarioInit 0 = _
    simp [adpllRun, scenarioInit_eq]
  | succ k ih =>
    have h2 : 2 * (k + 1) = (2 * k) + 1 + 1 := by omega
    rw [h2]
    simp only [adpllRun, ih, scenario_step_one, scenario_step_zero]
    have hr1 : List.range (2 * k + 1 + 1) = List.range (2 * k + 1) ++ [2 * k + 1] :=
      List.range_succ (2 * k + 1)
    have hr2 : List.range (2 * k + 1) = List.range (2 * k) ++ [2 * k] :=
      List.range_succ (2 * k)
    rw [hr1, hr2]
    have e1 : (2 * k) % 2 = 0 := by omega
    have e2 : (2 * k + 1) % 2 = 1 := by omega
    simp [e1, e2]

/-- C5 (amended): with `P₀ = 2 µs`, frequency factor 0.005, phase factor
0.1 and a perfectly periodic 4 µs delta stream, the ADPLL emits the
infinite repetition `1, 0, 1, 0, …` — each 1 followed by exactly ONE 0,
because a 4 µs interval spans two 2 µs half-bit cells — and the oscillator
period remains exactly `P₀` after every emitted bit. -/
theorem adpll_scenario (n fuel : Nat) :
    ∃ st : ADPLLState,
      adpllRun fourMicro (fuel + 1) scenarioInit n
        = some ((List.range n).map (fun i => if i % 2 = 0 then 1 else 0), st) ∧
      st.osc_period = scenarioP0 := by
  rcases Nat.even_or_odd n with ⟨m, hm⟩ | ⟨m, hm⟩
  · subst hm
    refine ⟨scenarioState m, ?_, rfl⟩
    have h := scenario_run_even fuel m
    rw [show m + m = 2 * m from by omega]
    exact h
  · subst hm
    refine ⟨{ scenarioState (m + 1) with zero_bits := 1 }, ?_, rfl⟩
    simp only [adpllRun, scenario_run_even fuel m, scenario_step_one]
    have hr : List.range (2 * m + 1) = List.range (2 * m) ++ [2 * m] :=
      List.range_succ (2 * m)
    rw [hr]
    have e1 : (2 * m) % 2 = 0 := by omega
    simp [e1]

/-- C5 counterexample: the third emitted bit (index 2) is 1, not the 0 the
claimed `1,0,0,0,…` repetition requires; the stream begins `1, 0, 1`. -/
theorem adpll_scenario_counterexample :
    (adpllRun fourMicro 1 scenarioInit 3).map Prod.fst = some [1, 0, 1] ∧
    ([1, 0, 1] : List Nat) ≠ [1, 0, 0] := by
  constructor
  · obtain ⟨st, hrun, _⟩ := adpll_scenario 3 0
    rw [hrun]
    rfl
  · decide

/-- C5 witness: the amended theorem applied at `n = 4`. -/
theorem adpll_scenario_witness :
    ∃ st : ADPLLState,
      adpllRun fourMicro 1 scenarioInit 4
        = some ((List.range 4).map (fun i => if i % 2 = 0 then 1 else 0), st) ∧
      st.osc_period = scenarioP0 :=
  adpll_scenario 4 0

/-! ## KryoFlux Flux3 branch (C8) -/

/-- C8 (code evaluated at the failing input): a stream whose first in-band
byte is 0x0C.  Line 176 of src/kfsf.py reads
`self.flux_change(self.read_u16_le)` — the bound method is passed without
being called, so `flux_change` adds an integer to a method object and the
parser dies with `TypeError` instead of reading a little-endian u16 cell
count and appending `prev + overflow + n`. -/
theorem kfsf_flux3_eval :
    kfsfParse [0x0c, 0x34, 0x12, 0x0d, 0x0d, 0x00, 0x00] = .error .typeError ∧
    kfsfParse [0x0e, 0x0d, 0x0d, 0x00, 0x00] ≠ .error .typeError := by
  exact ⟨by decide, by decide⟩

/-! ## Flux-vector monotonicity (C9) -/

/-- Appending an element at least as large as everything in the list keeps
a `≤`-chain. -/
theorem chain_le_append {l : List Nat} {c : Nat}
    (h1 : List.Chain' (· ≤ ·) l) (h2 : ∀ x ∈ l, x ≤ c) :
    List.Chain' (· ≤ ·) (l ++ [c]) := by
  rw [List.chain'_append]
  refine ⟨h1, List.chain'_singleton c, ?_⟩
  intro x hx y hy
  simp only [List.head?_cons, Option.mem_def, Option.some.injEq] at hy
  subst hy
  exact h2 x (List.mem_of_mem_getLast? hx)

/-- Appending a strictly larger element keeps a `<`-chain. -/
theorem chain_lt_append {l : List Nat} {c : Nat}
    (h1 : List.Chain' (· < ·) l) (h2 : ∀ x ∈ l, x < c) :
    List.Chain' (· < ·) (l ++ [c]) := by
  rw [List.chain'_append]
  refine ⟨h1, List.chain'_singleton c, ?_⟩
  intro x hx y hy
  simp only [List.head?_cons, Option.mem_def, Option.some.injEq] at hy
  subst hy
  exact h2 x (List.mem_of_mem_getLast? hx)

/-- The KFSF state invariant for C9: the absolute-transition vector is a
`≤`-chain bounded by the running sample counter. -/
def kfsMono (st : KFState) : Prop :=
  List.Chain' (· ≤ ·) st.flux_trans_abs ∧
  ∀ x ∈ st.flux_trans_abs, x ≤ st.flux_sample_counter

theorem flux_change_fields (st : KFState) (offset : Nat) :
    (flux_change st offset).flux_trans_abs
      = st.flux_trans_abs ++ [st.flux_sample_counter + st.overflow + offset] ∧
    (flux_change st offset).flux_sample_counter
      = st.flux_sample_counter + st.overflow + offset := by
  rcases hl : lookupRemove st.pending_index st.stream_offset with _ | ⟨sc, r⟩ <;>
    simp [flux_change, hl]

theorem flux_change_mono (st : KFState) (offset : Nat) (h : kfsMono st) :
    kfsMono (flux_change st offset) := by
  obtain ⟨h1, h2⟩ := h
  obtain ⟨hf, hc⟩ := flux_change_fields st offset
  have hle : st.flux_sample_counter ≤ st.flux_sample_counter + st.overflow + offset := by
    omega
  constructor
  · rw [hf]
    exact chain_le_append h1 (fun x hx => le_trans (h2 x hx) hle)
  · intro x hx
    rw [hf] at hx
    rw [hc]
    rcases List.mem_append.mp hx with hx | hx
    · exact le_trans (h2 x hx) hle
    · simp only [List.mem_singleton] at hx
      omega

set_option maxHeartbeats 2000000 in
theorem kfsfOOB_fields (st : KFState) (input : List Nat) (st' : KFState) (rest : List Nat)
    (h : kfsfOOB st input = .ok (st', rest)) :
    st'.flux_trans_abs = st.flux_trans_abs ∧
    st'.flux_sample_counter = st.flux_sample_counter := by
  unfold kfsfOOB at h
  repeat' split at h
  all_goals first
    | exact Except.noConfusion h
    | (injection h with h1
       injection h1 with h2 h3
       subst h2
       exact ⟨rfl, rfl⟩)

theorem kfsf_get_block_cases (st : KFState) (input : List Nat) (st' : KFState)
    (rest : List Nat) (h : kfsf_get_block st input = .ok (st', rest)) :
    (st'.flux_trans_abs = st.flux_trans_abs ∧
      st'.flux_sample_counter = st.flux_sample_counter) ∨
    ∃ offset,
      st'.flux_trans_abs
        = st.flux_trans_abs ++ [st.flux_sample_counter + st.overflow + offset] ∧
      st'.flux_sample_counter = st.flux_sample_counter + st.overflow + offset := by
  unfold kfsf_get_block at h
  repeat' split at h
  all_goals first
    | exact Except.noConfusion h
    | (left
       exact kfsfOOB_fields _ _ _ _ h)
    | (injection h with h1
       injection h1 with h2 h3
       subst h2
       first
         | exact Or.inl ⟨rfl, rfl⟩
         | (right
            exact ⟨_, (flux_change_fields _ _).1, (flux_change_fields _ _).2⟩))

theorem kfsf_get_block_mono (st : KFState) (input : List Nat) (st' : KFState)
    (rest : List Nat) (h : kfsf_get_block st input = .ok (st', rest)) (hm : kfsMono st) :
    kfsMono st' := by
  rcases kfsf_get_block_cases st input st' rest h with ⟨hf, hc⟩ | ⟨offset, hf, hc⟩
  · exact ⟨hf ▸ hm.1, by rw [hf, hc]; exact hm.2⟩
  · obtain ⟨h1, h2⟩ := hm
    have hle : st.flux_sample_counter ≤ st.flux_sample_counter + st.overflow + offset := by
      omega
    constructor
    · rw [hf]
      exact chain_le_append h1 (fun x hx => le_trans (h2 x hx) hle)
    · intro x hx
      rw [hf] at hx
      rw [hc]
      rcases List.mem_append.mp hx with hx | hx
      · exact le_trans (h2 x hx) hle
      · simp only [List.mem_singleton] at hx
        omega

theorem kfsfRun_mono :
    ∀ fuel (st : KFState) (input : List Nat) (st' : KFState),
      kfsfRun fuel st input = .ok st' → kfsMono st → kfsMono st'
  | 0, _, _, _, h, _ => by cases h
  | fuel + 1, st, input, st', h, hm => by
    unfold kfsfRun at h
    split at h
    · injection h with h1
      subst h1
      exact hm
    · split at h
      · cases h
      · rename_i st1 rest1 hblk
        exact kfsfRun_mono fuel st1 rest1 st' h (kfsf_get_block_mono st input st1 rest1 hblk hm)

theorem rel_nonneg_of_chain_le :
    ∀ l : List Nat, List.Chain' (· ≤ ·) l → ∀ d ∈ flux_trans_rel l, 0 ≤ d
  | [], _, d, hd => by simp [flux_trans_rel] at hd
  | [_], _, d, hd => by simp [flux_trans_rel] at hd
  | a :: b :: t, h, d, hd => by
    rw [List.chain'_cons] at h
    simp only [flux_trans_rel, List.tail_cons, List.zip_cons_cons, List.map_cons,
      List.mem_cons] at hd
    rcases hd with hd | hd
    · subst hd
      have := h.1
      omega
    · exact rel_nonneg_of_chain_le (b :: t) h.2 d (by
        simpa [flux_trans_rel] using hd)

theorem rel_pos_of_chain_lt :
    ∀ l : List Nat, List.Chain' (· < ·) l → ∀ d ∈ flux_trans_rel l, 0 < d
  | [], _, d, hd => by simp [flux_trans_rel] at hd
  | [_], _, d, hd => by simp [flux_trans_rel] at hd
  | a :: b :: t, h, d, hd => by
    rw [List.chain'_cons] at h
    simp only [flux_trans_rel, List.tail_cons, List.zip_cons_cons, List.map_cons,
      List.mem_cons] at hd
    rcases hd with hd | hd
    · subst hd
      have := h.1
      omega
    · exact rel_pos_of_chain_lt (b :: t) h.2 d (by
        simpa [flux_trans_rel] using hd)

theorem dfiV1Aux_mono :
    ∀ data t acc, List.Chain' (· < ·) acc → (∀ x ∈ acc, x ≤ t) →
      List.Chain' (· < ·) (dfiV1Aux data t acc).2
  | [], _, _, h1, _ => h1
  | b :: rest, t, acc, h1, h2 => by
    unfold dfiV1Aux
    split
    · exact dfiV1Aux_mono rest (t + 127) acc h1 (fun x hx => by
        have := h2 x hx
        omega)
    · rename_i hb
      have hpos : 1 ≤ b &&& 0x7f := by omega
      refine dfiV1Aux_mono rest (t + (b &&& 0x7f)) (acc ++ [t + (b &&& 0x7f)]) ?_ ?_
      · exact chain_lt_append h1 (fun x hx => by
          have := h2 x hx
          omega)
      · intro x hx
        rcases List.mem_append.mp hx with hx | hx
        · have := h2 x hx
          omega
        · simp only [List.mem_singleton] at hx
          omega

theorem dfiV2Aux_mono :
    ∀ data t acc idx, List.Chain' (· < ·) acc → (∀ x ∈ acc, x ≤ t) →
      List.Chain' (· < ·) (dfiV2Aux data t acc idx).2.1
  | [], _, _, _, h1, _ => h1
  | b :: rest, t, acc, idx, h1, h2 => by
    unfold dfiV2Aux
    split
    · exact dfiV2Aux_mono rest t acc idx h1 h2
    · split
      · exact dfiV2Aux_mono rest (t + 127) acc idx h1 (fun x hx => by
          have := h2 x hx
          omega)
      · split
        · exact dfiV2Aux_mono rest (t + (b &&& 0x7f)) acc (idx ++ [t + (b &&& 0x7f)]) h1
            (fun x hx => by
              have := h2 x hx
              omega)
        · rename_i hb0 _ _
          have hpos : 1 ≤ b &&& 0x7f := by omega
          refine dfiV2Aux_mono rest (t + (b &&& 0x7f)) (acc ++ [t + (b &&& 0x7f)]) idx ?_ ?_
          · exact chain_lt_append h1 (fun x hx => by
              have := h2 x hx
              omega)
          · intro x hx
            rcases List.mem_append.mp hx with hx | hx
            · have := h2 x hx
              omega
            · simp only [List.mem_singleton] at hx
              omega

theorem scpAccum_mono :
    ∀ cells t acc, List.Chain' (· ≤ ·) acc → (∀ x ∈ acc, x ≤ t) →
      List.Chain' (· ≤ ·) (scpAccum cells t acc)
  | [], _, _, h1, _ => h1
  | c :: rest, t, acc, h1, h2 => by
    unfold scpAccum
    refine scpAccum_mono rest (t + c) (acc ++ [t + c]) ?_ ?_
    · exact chain_le_append h1 (fun x hx => by
        have := h2 x hx
        omega)
    · intro x hx
      rcases List.mem_append.mp hx with hx | hx
      · have := h2 x hx
        omega
      · simp only [List.mem_singleton] at hx
        omega

/-- C9 (amended): the DFI reader's absolute-transition vectors are strictly
increasing with strictly positive derived intervals (both versions), while
the KFSF and SCP accumulators are only monotone non-decreasing with
non-negative intervals: both accept zero-valued cell counts (KryoFlux
Flux2 value 0, SCP cell 0) and then repeat an absolute time. -/
theorem flux_abs_monotone :
    (∀ data, List.Chain' (· < ·) (parse_data_version_1 data) ∧
      ∀ d ∈ flux_trans_rel (parse_data_version_1 data), 0 < d) ∧
    (∀ data, List.Chain' (· < ·) (parse_data_version_2 data) ∧
      ∀ d ∈ flux_trans_rel (parse_data_version_2 data), 0 < d) ∧
    (∀ (input : List Nat) (st : KFState), kfsfParse input = .ok st →
      List.Chain' (· ≤ ·) st.flux_trans_abs ∧
      ∀ d ∈ flux_trans_rel st.flux_trans_abs, 0 ≤ d) ∧
    (∀ cells, List.Chain' (· ≤ ·) (scpFluxAbs cells) ∧
      ∀ d ∈ flux_trans_rel (scpFluxAbs cells), 0 ≤ d) := by
  refine ⟨?_, ?_, ?_, ?_⟩
  · intro data
    have h := dfiV1Aux_mono data 0 [] (by simp) (by simp)
    exact ⟨h, rel_pos_of_chain_lt _ h⟩
  · intro data
    have h := dfiV2Aux_mono data 0 [] [] (by simp) (by simp)
    exact ⟨h, rel_pos_of_chain_lt _ h⟩
  · intro input st h
    have hm : kfsMono st := kfsfRun_mono (input.length + 2) kfsInit input st h
      (by constructor <;> simp [kfsInit])
    exact ⟨hm.1, rel_nonneg_of_chain_le _ hm.1⟩
  · intro cells
    have h := scpAccum_mono cells 0 [] (by simp) (by simp)
    exact ⟨h, rel_nonneg_of_chain_le _ h⟩

/-- C9 counterexample: the KryoFlux parser accepts four zero bytes (two
Flux2 codes with cell count 0) and produces the absolute-transition vector
`[0, 0]`, which is not strictly increasing. -/
theorem kfsf_not_strictly_increasing :
    (kfsfParse [0x00, 0x00, 0x00, 0x00, 0x0d, 0x0d, 0x00, 0x00]).map
        (fun s => s.flux_trans_abs) = .ok [0, 0] ∧
    ¬ List.Chain' (· < ·) ([0, 0] : List Nat) := by
  refine ⟨by decide, ?_⟩
  simp [List.chain'_cons]

/-- C9 witness: the amended theorem applied at concrete DFI v1 bytes and a
concrete KryoFlux stream. -/
theorem flux_abs_monotone_witness :
    (List.Chain' (· < ·) (parse_data_version_1 [0x20, 0x81, 0x7f, 0x40]) ∧
      ∀ d ∈ flux_trans_rel (parse_data_version_1 [0x20, 0x81, 0x7f, 0x40]), 0 < d) ∧
    (List.Chain' (· ≤ ·)
        (KFState.mk 1 0 35 35 [35] [] [] 0 false true).flux_trans_abs ∧
      ∀ d ∈ flux_trans_rel (KFState.mk 1 0 35 35 [35] [] [] 0 false true).flux_trans_abs,
        0 ≤ d) :=
  ⟨flux_abs_monotone.1 [0x20, 0x81, 0x7f, 0x40],
   flux_abs_monotone.2.2.1 [0x23, 0x0d, 0x0d, 0x00, 0x00]
     (KFState.mk 1 0 35 35 [35] [] [] 0 false true) (by decide)⟩

/-! ## C7: the unexpected-sector-size check -/

set_option maxRecDepth 10000 in
/-- C7: on channel bits carrying an FM ID field declaring sector size
`128 <<< 1 = 256` — not in `expected_sector_sizes = [128]` — with a valid
ID CRC and no data field, `dump_track` still records an entry for sector 1:
the size check (src/fluxtoimd.py lines 119-122) prints a diagnostic but has
no `continue`, so the candidate is not discarded and leaves its placeholder
in the returned mapping. -/
theorem dump_track_size_eval :
    dump_track FMdesc 0 0 c7bits false = some [(1, (false, none))] ∧
    (128 <<< 1) ∉ FMdesc.expected_sector_sizes :=
  ⟨by decide, by decide⟩

/-! ## C2: the ImageDisk round trip -/

set_option maxRecDepth 10000 in
/-- C2: the ImageDisk write-then-read round trip drops the deleted flag:
writing a single sector (mode 0, cylinder 0, head 0, sector 1, 128 bytes of
0xE5) with `deleted = True` and re-reading the produced image bytes yields
the same sector with `deleted = False`, because `__read_track`
(src/imagedisk.py line 97) calls `write_sector` without passing the
`deleted` flag it computed on line 91. -/
theorem imd_roundtrip_drops_deleted :
    write_sector [] 0 0 0 1 (List.replicate 128 0xe5) true false =
      .ok [((0, 0), [(1, ⟨0, true, 0, List.replicate 128 0xe5⟩)])] ∧
    (write_sector [] 0 0 0 1 (List.replicate 128 0xe5) true false
        >>= imdWrite >>= imdRead) =
      .ok [((0, 0), [(1, ⟨0, false, 0, List.replicate 128 0xe5⟩)])] :=
  ⟨by decide, by decide⟩

/-! ## C6: the dump_track sector-map invariants -/

theorem alSet_mem {α β : Type} [DecidableEq α] (m : List (α × β)) (k : α) (v : β)
    (x : α × β) (hx : x ∈ alSet m k v) : x = (k, v) ∨ x ∈ m := by
  induction m with
  | nil =>
    simp only [alSet, List.mem_singleton] at hx
    exact Or.inl hx
  | cons y rest ih =>
    obtain ⟨k', v'⟩ := y
    simp only [alSet] at hx
    by_cases h : k' = k
    · rw [if_pos h] at hx
      rcases List.mem_cons.mp hx with hx | hx
      · exact Or.inl hx
      · exact Or.inr (List.mem_cons_of_mem _ hx)
    · rw [if_neg h] at hx
      rcases List.mem_cons.mp hx with hx | hx
      · exact Or.inr (by simp [hx])
      · rcases ih hx with h1 | h1
        · exact Or.inl h1
        · exact Or.inr (List.mem_cons_of_mem _ h1)

theorem alSet_lookup_ne {α β : Type} [DecidableEq α] (m : List (α × β)) (k k' : α)
    (v : β) (h : ¬ k = k') : (alSet m k' v).lookup k = m.lookup k := by
  induction m with
  | nil =>
    have hb : (k == k') = false := beq_eq_false_iff_ne.mpr h
    simp [alSet, List.lookup, hb]
  | cons y rest ih =>
    obtain ⟨k1, v1⟩ := y
    simp only [alSet]
    by_cases h1 : k1 = k'
    · subst h1
      have hb : (k == k1) = false := beq_eq_false_iff_ne.mpr h
      simp [alSet, List.lookup, hb]
    · rw [if_neg h1]
      by_cases h2 : k = k1
      · subst h2
        simp [List.lookup]
      · simp [List.lookup, h2, ih]

/-- A successful `finishData` leaves lookups at other sector numbers
unchanged. -/
theorem finishData_lookup_ne (M : ModDesc) (sectors1 : SectorMap) (ks : Nat)
    (deleted : Bool) (dp : Int) (bits : List Bool) (bc : Nat)
    (sectors' : SectorMap)
    (h : finishData M sectors1 ks deleted dp bits bc = some sectors')
    (k : Nat) (hk : ¬ k = ks) : sectors'.lookup k = sectors1.lookup k := by
  cases hdf : Modulation.decode
      ((bits.drop dp.toNat).take (M.id_address_mark.length + (bc + 2) * 16)) with
  | none =>
    simp only [finishData, hdf] at h
    exact Option.noConfusion h
  | some data_field =>
    simp only [finishData, hdf] at h
    by_cases hc : trackCRC M (if M.crc_includes_address_mark then data_field
        else data_field.drop 1) ≠ 0
    · rw [if_pos hc] at h
      injection h with h
      subst h
      rfl
    · rw [if_neg hc] at h
      injection h with h
      subst h
      exact alSet_lookup_ne _ _ _ _ hk

/-- Every entry after a successful `finishData` is good, given the
surrounding candidate's ID-field facts. -/
theorem finishData_good (M : ModDesc) (track side p k id_size : Nat)
    (bits : List Bool) (sectors1 : SectorMap) (deleted : Bool) (dp : Int)
    (id_field : List Nat)
    (hid : Modulation.decode
      ((bits.drop p).take (M.id_address_mark.length + 16 * (M.id_field_length + 2)))
      = some id_field)
    (hcrc : trackCRC M (if M.crc_includes_address_mark then id_field
        else id_field.drop 1) = 0)
    (hparse : parseId M id_field = some (track, side, k, id_size))
    (hwin : windowOK M p dp = true)
    (hgood : ∀ k' e, (k', e) ∈ sectors1 → goodEntry M track side bits k' e)
    (sectors' : SectorMap)
    (h : finishData M sectors1 k deleted dp bits (128 <<< id_size) = some sectors') :
    ∀ k' e, (k', e) ∈ sectors' → goodEntry M track side bits k' e := by
  cases hdf : Modulation.decode
      ((bits.drop dp.toNat).take
        (M.id_address_mark.length + ((128 <<< id_size) + 2) * 16)) with
  | none =>
    simp only [finishData, hdf] at h
    exact Option.noConfusion h
  | some data_field =>
    simp only [finishData, hdf] at h
    by_cases hc : trackCRC M (if M.crc_includes_address_mark then data_field
        else data_field.drop 1) ≠ 0
    · rw [if_pos hc] at h
      injection h with h
      subst h
      exact hgood
    · rw [if_neg hc] at h
      push_neg at hc
      injection h with h
      subst h
      intro k' e hmem
      rcases alSet_mem _ _ _ _ hmem with he | he
      · rw [Prod.mk.injEq] at he
        obtain ⟨rfl, rfl⟩ := he
        intro data hdata
        have hdata' : some ((data_field.drop 1).take (128 <<< id_size)) = some data :=
          hdata
        injection hdata' with hd
        subst hd
        exact ⟨p, id_field, id_size, dp, data_field, hid, hcrc, hparse, hwin, hdf,
          hc, rfl⟩
      · exact hgood k' e he

/-- The data-field phase of one candidate (src/fluxtoimd.py, lines 127-156),
after the placeholder insertion: every entry of the result is good. -/
theorem candidateData_good (M : ModDesc) (track side p k id_size : Nat)
    (bits : List Bool) (sectors1 : SectorMap) (id_field : List Nat)
    (hid : Modulation.decode
      ((bits.drop p).take (M.id_address_mark.length + 16 * (M.id_field_length + 2)))
      = some id_field)
    (hcrc : trackCRC M (if M.crc_includes_address_mark then id_field
        else id_field.drop 1) = 0)
    (hparse : parseId M id_field = some (track, side, k, id_size))
    (hgood1 : ∀ k' e, (k', e) ∈ sectors1 → goodEntry M track side bits k' e)
    (sectors' : SectorMap)
    (h : (if windowOK M p (strFind M.data_address_mark bits
            (p + M.id_address_mark.length + 16 * (M.id_field_length + 2)))
          then finishData M sectors1 k false
            (strFind M.data_address_mark bits
              (p + M.id_address_mark.length + 16 * (M.id_field_length + 2)))
            bits (128 <<< id_size)
          else
            match M.deleted_data_address_mark with
            | some dm =>
              if windowOK M p (strFind dm bits (p + M.id_address_mark.length + 96))
              then finishData M sectors1 k true
                (strFind dm bits (p + M.id_address_mark.length + 96))
                bits (128 <<< id_size)
              else some sectors1
            | none => some sectors1) = some sectors') :
    ∀ k' e, (k', e) ∈ sectors' → goodEntry M track side bits k' e := by
  by_cases hw : windowOK M p (strFind M.data_address_mark bits
      (p + M.id_address_mark.length + 16 * (M.id_field_length + 2))) = true
  · rw [if_pos hw] at h
    exact finishData_good M track side p k id_size bits sectors1 false _ id_field
      hid hcrc hparse hw hgood1 sectors' h
  · rw [if_neg hw] at h
    cases hdm : M.deleted_data_address_mark with
    | none =>
      simp only [hdm] at h
      injection h with h
      subst h
      exact hgood1
    | some dm =>
      simp only [hdm] at h
      by_cases hw2 : windowOK M p (strFind dm bits
          (p + M.id_address_mark.length + 96)) = true
      · rw [if_pos hw2] at h
        exact finishData_good M track side p k id_size bits sectors1 true _ id_field
          hid hcrc hparse hw2 hgood1 sectors' h
      · rw [if_neg hw2] at h
        injection h with h
        subst h
        exact hgood1

/-- The data-field phase leaves lookups at other sector numbers
unchanged. -/
theorem candidateData_lookup (M : ModDesc) (p k id_size : Nat)
    (bits : List Bool) (sectors1 : SectorMap) (sectors' : SectorMap)
    (h : (if windowOK M p (strFind M.data_address_mark bits
            (p + M.id_address_mark.length + 16 * (M.id_field_length + 2)))
          then finishData M sectors1 k false
            (strFind M.data_address_mark bits
              (p + M.id_address_mark.length + 16 * (M.id_field_length + 2)))
            bits (128 <<< id_size)
          else
            match M.deleted_data_address_mark with
            | some dm =>
              if windowOK M p (strFind dm bits (p + M.id_address_mark.length + 96))
              then finishData M sectors1 k true
                (strFind dm bits (p + M.id_address_mark.length + 96))
                bits (128 <<< id_size)
              else some sectors1
            | none => some sectors1) = some sectors')
    (k' : Nat) (hk : ¬ k' = k) : sectors'.lookup k' = sectors1.lookup k' := by
  by_cases hw : windowOK M p (strFind M.data_address_mark bits
      (p + M.id_address_mark.length + 16 * (M.id_field_length + 2))) = true
  · rw [if_pos hw] at h
    exact finishData_lookup_ne M sectors1 k false _ bits _ sectors' h k' hk
  · rw [if_neg hw] at h
    cases hdm : M.deleted_data_address_mark with
    | none =>
      simp only [hdm] at h
      injection h with h
      subst h
      rfl
    | some dm =>
      simp only [hdm] at h
      by_cases hw2 : windowOK M p (strFind dm bits
          (p + M.id_address_mark.length + 96)) = true
      · rw [if_pos hw2] at h
        exact finishData_lookup_ne M sectors1 k true _ bits _ sectors' h k' hk
      · rw [if_neg hw2] at h
        injection h with h
        subst h
        rfl

/-- One candidate preserves goodness of all entries. -/
theorem processCandidate_good (M : ModDesc) (track side : Nat) (bits : List Bool)
    (sectors : SectorMap) (p : Nat) (sectors' : SectorMap)
    (hgood : ∀ k e, (k, e) ∈ sectors → goodEntry M track side bits k e)
    (h : processCandidate M track side bits sectors p = some sectors') :
    ∀ k e, (k, e) ∈ sectors' → goodEntry M track side bits k e := by
  cases hdec : Modulation.decode
      ((bits.drop p).take (M.id_address_mark.length + 16 * (M.id_field_length + 2))) with
  | none =>
    simp only [processCandidate, hdec] at h
    exact Option.noConfusion h
  | some id_field =>
    simp only [processCandidate, hdec] at h
    by_cases hcrc : trackCRC M (if M.crc_includes_address_mark then id_field
        else id_field.drop 1) ≠ 0
    · rw [if_pos hcrc] at h
      injection h with h
      subst h
      exact hgood
    · rw [if_neg hcrc] at h
      push_neg at hcrc
      cases hparse : parseId M id_field with
      | none =>
        simp only [hparse] at h
        exact Option.noConfusion h
      | some q =>
        obtain ⟨id_track, id_head, id_sector, id_size⟩ := q
        simp only [hparse] at h
        by_cases hh : id_head ≠ side
        · rw [if_pos hh] at h
          injection h with h
          subst h
          exact hgood
        · rw [if_neg hh] at h
          push_neg at hh
          by_cases ht : id_track ≠ track
          · rw [if_pos ht] at h
            injection h with h
            subst h
            exact hgood
          · rw [if_neg ht] at h
            push_neg at ht
            rw [hh, ht] at hparse
            have hgood1 : ∀ k' e, (k', e) ∈ alSet sectors id_sector (false, none) →
                goodEntry M track side bits k' e := by
              intro k' e hmem
              rcases alSet_mem _ _ _ _ hmem with he | he
              · rw [Prod.mk.injEq] at he
                obtain ⟨rfl, rfl⟩ := he
                intro data hdata
                simp at hdata
              · exact hgood k' e he
            cases hl : (sectors.lookup id_sector : Option SectorEntry) with
            | some e0 =>
              obtain ⟨b0, od0⟩ := e0
              cases od0 with
              | some d0 =>
                simp only [hl] at h
                injection h with h
                subst h
                exact hgood
              | none =>
                simp only [hl] at h
                exact candidateData_good M track side p id_sector id_size bits
                  (alSet sectors id_sector (false, none)) id_field hdec hcrc hparse
                  hgood1 sectors' h
            | none =>
              simp only [hl] at h
              exact candidateData_good M track side p id_sector id_size bits
                (alSet sectors id_sector (false, none)) id_field hdec hcrc hparse
                hgood1 sectors' h

/-- One candidate never changes an entry that already stores a payload. -/
theorem processCandidate_keeps (M : ModDesc) (track side : Nat) (bits : List Bool)
    (sectors : SectorMap) (p : Nat) (sectors' : SectorMap)
    (h : processCandidate M track side bits sectors p = some sectors')
    (k : Nat) (b : Bool) (d : List Nat)
    (hk : sectors.lookup k = some (b, some d)) :
    sectors'.lookup k = some (b, some d) := by
  cases hdec : Modulation.decode
      ((bits.drop p).take (M.id_address_mark.length + 16 * (M.id_field_length + 2))) with
  | none =>
    simp only [processCandidate, hdec] at h
    exact Option.noConfusion h
  | some id_field =>
    simp only [processCandidate, hdec] at h
    by_cases hcrc : trackCRC M (if M.crc_includes_address_mark then id_field
        else id_field.drop 1) ≠ 0
    · rw [if_pos hcrc] at h
      injection h with h
      subst h
      exact hk
    · rw [if_neg hcrc] at h
      cases hparse : parseId M id_field with
      | none =>
        simp only [hparse] at h
        exact Option.noConfusion h
      | some q =>
        obtain ⟨id_track, id_head, id_sector, id_size⟩ := q
        simp only [hparse] at h
        by_cases hh : id_head ≠ side
        · rw [if_pos hh] at h
          injection h with h
          subst h
          exact hk
        · rw [if_neg hh] at h
          by_cases ht : id_track ≠ track
          · rw [if_pos ht] at h
            injection h with h
            subst h
            exact hk
          · rw [if_neg ht] at h
            cases hl : (sectors.lookup id_sector : Option SectorEntry) with
            | some e0 =>
              obtain ⟨b0, od0⟩ := e0
              cases od0 with
              | some d0 =>
                simp only [hl] at h
                injection h with h
                subst h
                exact hk
              | none =>
                simp only [hl] at h
                have hne : ¬ k = id_sector := by
                  intro he
                  rw [he, hl] at hk
                  injection hk with hk
                  rw [Prod.mk.injEq] at hk
                  exact Option.noConfusion hk.2
                rw [candidateData_lookup M p id_sector id_size bits
                    (alSet sectors id_sector (false, none)) sectors' h k hne,
                  alSet_lookup_ne sectors k id_sector (false, none) hne]
                exact hk
            | none =>
              simp only [hl] at h
              have hne : ¬ k = id_sector := by
                intro he
                rw [he, hl] at hk
                exact Option.noConfusion hk
              rw [candidateData_lookup M p id_sector id_size bits
                  (alSet sectors id_sector (false, none)) sectors' h k hne,
                alSet_lookup_ne sectors k id_sector (false, none) hne]
              exact hk

/-- The candidate loop preserves goodness of all entries. -/
theorem processCandidates_good (M : ModDesc) (track side : Nat) (bits : List Bool) :
    ∀ (ps : List Nat) (sectors sectors' : SectorMap),
    (∀ k e, (k, e) ∈ sectors → goodEntry M track side bits k e) →
    processCandidates M track side bits sectors ps = some sectors' →
    ∀ k e, (k, e) ∈ sectors' → goodEntry M track side bits k e := by
  intro ps
  induction ps with
  | nil =>
    intro sectors sectors' hgood h
    simp only [processCandidates] at h
    injection h with h
    subst h
    exact hgood
  | cons q rest ih =>
    intro sectors sectors' hgood h
    simp only [processCandidates] at h
    cases hpc : processCandidate M track side bits sectors q with
    | none =>
      simp only [hpc] at h
      exact Option.noConfusion h
    | some s1 =>
      simp only [hpc] at h
      exact ih s1 sectors'
        (processCandidate_good M track side bits sectors q s1 hgood hpc) h

/-- The candidate loop never changes an entry that already stores a
payload. -/
theorem processCandidates_keep (M : ModDesc) (track side : Nat) (bits : List Bool) :
    ∀ (ps : List Nat) (sectors sectors' : SectorMap),
    processCandidates M track side bits sectors ps = some sectors' →
    ∀ k b d, sectors.lookup k = some (b, some d) →
      sectors'.lookup k = some (b, some d) := by
  intro ps
  induction ps with
  | nil =>
    intro sectors sectors' h k b d hk
    simp only [processCandidates] at h
    injection h with h
    subst h
    exact hk
  | cons q rest ih =>
    intro sectors sectors' h k b d hk
    simp only [processCandidates] at h
    cases hpc : processCandidate M track side bits sectors q with
    | none =>
      simp only [hpc] at h
      exact Option.noConfusion h
    | some s1 =>
      simp only [hpc] at h
      exact ih s1 sectors' h k b d
        (processCandidate_keeps M track side bits sectors q s1 hpc k b d hk)

/-- C6 (amended): (1) every entry of the mapping returned by `dump_track`
that carries a payload records a fully successful decode — an ID slice
decoding with CRC zero whose declared coordinates equal `(track, side)`, a
data mark within the distance window, and a data field with CRC zero —
while candidates whose data field is missing or fails its CRC may still
leave a payload-free `(False, None)` placeholder entry in the mapping;
(2) once a sector number stores a successfully decoded payload, later
candidates for that number leave its entry unchanged. -/
theorem dump_track_invariants :
    (∀ (M : ModDesc) (track side : Nat) (bits : List Bool) (rim : Bool)
        (sectors : SectorMap),
        dump_track M track side bits rim = some sectors →
        ∀ k e, (k, e) ∈ sectors → goodEntry M track side bits k e) ∧
    (∀ (M : ModDesc) (track side : Nat) (bits : List Bool) (sectors : SectorMap)
        (ps : List Nat) (sectors' : SectorMap),
        processCandidates M track side bits sectors ps = some sectors' →
        ∀ k b d, sectors.lookup k = some (b, some d) →
          sectors'.lookup k = some (b, some d)) := by
  constructor
  · intro M track side bits rim sectors h k e hmem
    have hnil : ∀ k' e', (k', e') ∈ ([] : SectorMap) →
        goodEntry M track side bits k' e' := by
      intro k' e' hm
      simp at hm
    cases rim with
    | false =>
      simp only [dump_track, Bool.false_eq_true, if_false] at h
      exact processCandidates_good M track side bits _ [] sectors hnil h k e hmem
    | true =>
      simp only [dump_track, if_true] at h
      cases him : M.index_address_mark with
      | none =>
        simp only [him] at h
        exact Option.noConfusion h
      | some im =>
        simp only [him] at h
        by_cases hfi : finditer im bits 0 = []
        · rw [if_pos hfi] at h
          injection h with h
          subst h
          simp at hmem
        · rw [if_neg hfi] at h
          exact processCandidates_good M track side bits _ [] sectors hnil h k e hmem
  · intro M track side bits sectors ps sectors' h k b d hk
    exact processCandidates_keep M track side bits ps sectors sectors' h k b d hk

set_option maxRecDepth 10000 in
/-- C6 counterexample: on channel bits holding one valid FM ID field
(track 0, head 0, sector 1, size 0, correct CRC trailer 0xD2C3) and no
data address mark anywhere, `dump_track` returns a mapping containing the
entry `1 ↦ (False, None)`: a sector whose data field was missing is
present in the returned mapping. -/
theorem dump_track_placeholder_counterexample :
    dump_track FMdesc 0 0 c6bits false = some [(1, (false, none))] ∧
    strFind FMdesc.data_address_mark c6bits 0 = -1 :=
  ⟨by decide, by decide⟩

set_option maxRecDepth 10000 in
/-- C6 witness: the amended invariants applied at the concrete bit string
`c6bits` (part 1, at the placeholder entry it produces) and at a concrete
mapping already storing a payload (part 2). -/
theorem dump_track_invariants_witness :
    goodEntry FMdesc 0 0 c6bits 1 (false, none) ∧
    ([(1, (true, some [5]))] : SectorMap).lookup 1 = some (true, some [5]) :=
  ⟨dump_track_invariants.1 FMdesc 0 0 c6bits false [(1, (false, none))] (by decide)
      1 (false, none) (by simp),
   dump_track_invariants.2 FMdesc 0 0 c6bits [(1, (true, some [5]))] [0]
      [(1, (true, some [5]))] (by decide) 1 true [5] (by decide)⟩

end FluxToImd
